import Mathlib

/-!
# oidentd: the identity disclosure decision and the masquerade table

A shallow embedding of `src/user_db.c` (the capability store, the rule
matching primitives, the spoof check `user_db_can_reply` and the decision
procedure `get_ident`) and of `find_masq_entry` of `src/masq.c`, followed by
the properties established about them.

C strings are lists of characters (without the terminating NUL), machine
integers are naturals, nullable pointers are `Option`, and a linked list
`list_t` is a `List` in link order (head first).  The masquerade map is the
list of the bytes of the file, which `find_masq_entry` reads through its line
buffer of 4096 bytes; a buffer is read as a C string, up to its first NUL.  A result `none` of a
function that returns a value in C stands for undefined behaviour of the C
code (a NULL dereference, an out-of-bounds read).
-/

namespace Oidentd

/-! ## Data model -/

/-- Modelled from the spec: the header `user_db.h` and the build configuration
are absent from the sources, so the values of the constants that `user_db.c`
uses are parameters of the embedding: the size of the hash table, the action
code `ACTION_FORCE`, the capability bits `CAP_*`, the reply text put in front
of a random number and the exclusive upper bound of that number.  The six
constants that label the cases of the `switch (caps)` statements of
`get_ident` are pairwise different, as C demands of the labels of one
switch (field `labels_nodup`). -/
structure cap_consts where
  DB_HASH_SIZE : Nat
  ACTION_FORCE : Nat
  CAP_SPOOF : Nat
  CAP_SPOOF_ALL : Nat
  CAP_SPOOF_PRIVPORT : Nat
  CAP_HIDE : Nat
  CAP_RANDOM : Nat
  CAP_RANDOM_NUMERIC : Nat
  CAP_NUMERIC : Nat
  CAP_REPLY : Nat
  CAP_FORWARD : Nat
  UPREFIX_STR : List Char
  RANDOM_NUMERIC_UPPER_EXCL : Nat
  labels_nodup : [CAP_REPLY, CAP_FORWARD, CAP_HIDE, CAP_RANDOM, CAP_NUMERIC,
    CAP_RANDOM_NUMERIC].Nodup

/-- One assignment of the constants: one bit for each capability, used for the
concrete instances below. -/
def sample_consts : cap_consts where
  DB_HASH_SIZE := 32
  ACTION_FORCE := 2
  CAP_SPOOF := 1
  CAP_SPOOF_ALL := 2
  CAP_SPOOF_PRIVPORT := 4
  CAP_HIDE := 8
  CAP_RANDOM := 16
  CAP_RANDOM_NUMERIC := 32
  CAP_NUMERIC := 64
  CAP_REPLY := 128
  CAP_FORWARD := 256
  UPREFIX_STR := ['u', 's', 'e', 'r']
  RANDOM_NUMERIC_UPPER_EXCL := 100000
  labels_nodup := by decide

/-- The fields of `struct passwd` that `user_db.c` reads. -/
structure passwd where
  pw_name : List Char
  pw_uid : Nat
deriving DecidableEq, Repr

/-- The `struct port_range` of a port filter: inclusive bounds. -/
structure port_range where
  min : Nat
  max : Nat
deriving DecidableEq, Repr

/-- A socket address: family, raw address bytes (as a number) and port. -/
structure sockaddr_storage where
  ss_family : Nat
  s_addr : Nat
  sin_port : Nat
deriving DecidableEq, Repr

/-- The `struct user_cap`: the four optional filters (a NULL pointer is
`none`), the action, the capability bits, and the payload union `data`, whose
two variants (`replies` and `forward`) are kept side by side. -/
structure user_cap where
  caps : Nat
  action : Nat
  lport : Option port_range
  fport : Option port_range
  src : Option sockaddr_storage
  dest : Option sockaddr_storage
  replies : List (List Char)
  forward_host : sockaddr_storage
  forward_port : Nat
deriving DecidableEq, Repr

/-- The `struct user_info`: a numeric identity and its capability list. -/
structure user_info where
  user : Nat
  cap_list : List user_cap
deriving DecidableEq, Repr

/-- The two globals of `user_db.c`: the hash table `user_hash` (bucket index to
bucket list) and the pointer `default_user`. -/
structure user_db where
  user_hash : Nat → List user_info
  default_user : Option user_info

/-- Modelled from the spec: the collaborators that `user_db.c` calls and whose
code is outside the sources: the identity directory `getpwnam`, the remote
forwarding client `forward_request` (relay host, relay port, local port,
foreign port, the reply buffer, its capacity; it gives its return code and the
buffer afterwards), the personal preference loader `user_db_get_pref_list`,
and the pseudo-random source `randval`, whose state is the number of draws
made so far in this decision (`randval k n` is the draw number `k`, asked for
a value below `n`). -/
structure collaborators where
  getpwnam : List Char → Option passwd
  forward_request : sockaddr_storage → Nat → Nat → Nat → List Char → Nat → Int × List Char
  user_db_get_pref_list : passwd → List user_cap
  randval : Nat → Nat → Nat

/-! ## Helpers declared in `util.h` and `inet_util.h` -/

/-- Modelled from the spec: `xstrncpy` of `util.c` (declared in `util.h`, body
absent): the destination buffer of capacity `n` receives at most `n - 1`
characters of `src`; with `n = 0` nothing is written. -/
def xstrncpy (dest src : List Char) (n : Nat) : List Char :=
  if n = 0 then dest else src.take (n - 1)

/-- Modelled from the spec: `sin_equal` of `inet_util.c` (body absent): equal
family and equal raw address bytes, the port is not compared. -/
def sin_equal (a b : sockaddr_storage) : Bool :=
  a.ss_family == b.ss_family && a.s_addr == b.s_addr

/-- The macro `MIN` of `util.h`. -/
def MIN (x y : Nat) : Nat := if x < y then x else y

/-! ## `user_db.c` -/

/-- The macro `USER_DB_HASH`. -/
def USER_DB_HASH (K : cap_consts) (x : Nat) : Nat := x % K.DB_HASH_SIZE

/-- The function `addr_match`: NULL is a wildcard. -/
def addr_match (addr : sockaddr_storage) (cap_addr : Option sockaddr_storage) : Bool :=
  match cap_addr with
  | none => true
  | some c => sin_equal addr c

/-- The function `port_match`: NULL is a wildcard. -/
def port_match (port : Nat) (cap_ports : Option port_range) : Bool :=
  match cap_ports with
  | none => true
  | some r => if port ≥ r.min && port ≤ r.max then true else false

/-- The function `user_db_have_cap`. -/
def user_db_have_cap (user_cap : user_cap) (cap_flag : Nat) : Bool :=
  (user_cap.caps &&& cap_flag) != 0

/-- The function `user_db_add`: prepend to the bucket of the identity. -/
def user_db_add (K : cap_consts) (db : user_db) (ui : user_info) : user_db :=
  { db with user_hash := fun i =>
      if i = USER_DB_HASH K ui.user then ui :: db.user_hash i else db.user_hash i }

/-- The loop of `user_db_lookup` over one bucket. -/
def user_db_lookup_bucket (uid : Nat) : List user_info → Option user_info
  | [] => none
  | ui :: cur => if ui.user = uid then some ui else user_db_lookup_bucket uid cur

/-- The function `user_db_lookup`. -/
def user_db_lookup (K : cap_consts) (db : user_db) (uid : Nat) : Option user_info :=
  user_db_lookup_bucket uid (db.user_hash (USER_DB_HASH K uid))

/-- The loop of `user_db_cap_lookup` over a capability list: a rule failing one
of the four tests is skipped (`continue`), the first one passing all is
returned. -/
def user_db_cap_lookup_list (lport fport : Nat) (laddr faddr : sockaddr_storage) :
    List user_cap → Option user_cap
  | [] => none
  | c :: cur =>
    if !port_match lport c.lport then user_db_cap_lookup_list lport fport laddr faddr cur
    else if !port_match fport c.fport then user_db_cap_lookup_list lport fport laddr faddr cur
    else if !addr_match laddr c.src then user_db_cap_lookup_list lport fport laddr faddr cur
    else if !addr_match faddr c.dest then user_db_cap_lookup_list lport fport laddr faddr cur
    else some c

/-- The function `user_db_cap_lookup`: NULL for a NULL `user_info`. -/
def user_db_cap_lookup (ui : Option user_info) (lport fport : Nat)
    (laddr faddr : sockaddr_storage) : Option user_cap :=
  match ui with
  | none => none
  | some u => user_db_cap_lookup_list lport fport laddr faddr u.cap_list

/-- The function `user_db_create_default`: a user whose list holds one rule
that `xcalloc` filled with zeroes (the `user` field is left as allocated, here
the parameter `u`). -/
def user_db_create_default (u : Nat) : user_info :=
  { user := u,
    cap_list := [{ caps := 0, action := 0, lport := none, fport := none, src := none,
                   dest := none, replies := [], forward_host := ⟨0, 0, 0⟩, forward_port := 0 }] }

/-- The function `user_db_set_default`. -/
def user_db_set_default (db : user_db) (ui : user_info) : user_db :=
  { db with default_user := some ui }

/-- The function `user_db_get_pref`: the first rule of the freshly loaded
preference list that passes the four tests. -/
def user_db_get_pref (E : collaborators) (pw : passwd) (lport fport : Nat)
    (laddr faddr : sockaddr_storage) : Option user_cap :=
  user_db_cap_lookup_list lport fport laddr faddr (E.user_db_get_pref_list pw)

/-- The function `user_db_can_reply`; `tail` is its end (lines 374-382), reached
when `getpwnam` fails and when it names another user under SPOOF_ALL.  The
line written by `o_log` is not modelled. -/
def user_db_can_reply (K : cap_consts) (E : collaborators) (user_cap : user_cap)
    (user_pwd : passwd) (reply : List Char) (fport : Nat) : Bool :=
  let tail : Bool :=
    if !user_db_have_cap user_cap K.CAP_SPOOF then false
    else if decide (fport < 1024) && !user_db_have_cap user_cap K.CAP_SPOOF_PRIVPORT then false
    else true
  match E.getpwnam reply with
  | some spoof_pwd =>
    if spoof_pwd.pw_uid = user_pwd.pw_uid then true
    else if !user_db_have_cap user_cap K.CAP_SPOOF_ALL then false
    else tail
  | none => tail

/-- The function `select_reply`: the entry of the reply array at the index
drawn below its length; `none` when the index is outside the array. -/
def select_reply (E : collaborators) (user : user_cap) : Option (List Char) :=
  user.replies.get? (E.randval 0 user.replies.length)

/-- The alphabet `valid` of `random_ident`. -/
def valid : List Char :=
  "0123456789ABCDEFGHIJKLMNOPQRSTUVWXYZabcdefghijklmnopqrstuvwxyz".toList

/-- The loop of `random_ident`: `count` more characters, the next one drawn by
the draw number `i`; each is the entry of `valid` at an index drawn below 62,
and `none` when a drawn index leaves the alphabet. -/
def random_ident_loop (E : collaborators) : Nat → Nat → Option (List Char)
  | 0, _ => some []
  | count + 1, i =>
    match valid.get? (E.randval i valid.length) with
    | none => none
    | some ch => (random_ident_loop E count (i + 1)).map (fun rest => ch :: rest)

/-- The function `random_ident`: `len - 1` characters of the alphabet; `none`
when `len` is 0 (the unsigned `len - 1` wraps and the loop leaves the
buffer). -/
def random_ident (E : collaborators) (len : Nat) : Option (List Char) :=
  if len = 0 then none else random_ident_loop E (len - 1) 0

/-- Modelled from the spec: `snprintf` with one string to print into a buffer
of capacity `len`: at most `len - 1` characters are stored, none when `len`
is 0. -/
def snprintf_str (buf s : List Char) (len : Nat) : List Char :=
  if len = 0 then buf else s.take (len - 1)

/-- The function `numeric_ident`: the uid in decimal. -/
def numeric_ident (con_uid : Nat) (buf : List Char) (len : Nat) : List Char :=
  snprintf_str buf (Nat.toDigits 10 con_uid) len

/-- The function `random_ident_numeric`: the fixed text, then a drawn number in
decimal. -/
def random_ident_numeric (K : cap_consts) (E : collaborators) (buf : List Char) (len : Nat) :
    List Char :=
  snprintf_str buf (K.UPREFIX_STR ++ Nat.toDigits 10 (E.randval 0 K.RANDOM_NUMERIC_UPPER_EXCL)) len

/-- The label `out_implicit` of `get_ident`: the system name is copied. -/
def out_implicit (pwd : passwd) (reply : List Char) (len : Nat) : Int × List Char :=
  (0, xstrncpy reply pwd.pw_name len)

/-- The first branch of `get_ident` (lines 153-185): the dispatch on the
`caps` of a rule whose action is `ACTION_FORCE`. -/
def get_ident_force (K : cap_consts) (E : collaborators) (user_cap : user_cap) (pwd : passwd)
    (lport fport : Nat) (reply : List Char) (len : Nat) : Option (Int × List Char) :=
  if user_cap.caps = K.CAP_REPLY then
    (select_reply E user_cap).map (fun s => (0, xstrncpy reply s len))
  else if user_cap.caps = K.CAP_FORWARD then
    some (E.forward_request user_cap.forward_host user_cap.forward_port lport fport reply len)
  else if user_cap.caps = K.CAP_HIDE then
    some (-1, reply)
  else if user_cap.caps = K.CAP_RANDOM then
    (random_ident E (MIN 12 len)).map (fun s => (0, s))
  else if user_cap.caps = K.CAP_NUMERIC then
    some (0, numeric_ident pwd.pw_uid reply len)
  else if user_cap.caps = K.CAP_RANDOM_NUMERIC then
    some (0, random_ident_numeric K E reply len)
  else
    some (out_implicit pwd reply len)

/-- The second part of `get_ident` (lines 187-275): the dispatch on the `caps`
of the matched preference, each case gated by the administrator rule
`user_cap`. -/
def get_ident_pref (K : cap_consts) (E : collaborators) (user_cap : user_cap) (pwd : passwd)
    (lport fport : Nat) (laddr faddr : sockaddr_storage) (reply : List Char) (len : Nat) :
    Option (Int × List Char) :=
  match user_db_get_pref E pwd lport fport laddr faddr with
  | none => some (out_implicit pwd reply len)
  | some user_pref =>
    let caps := user_pref.caps
    if caps = K.CAP_HIDE then
      if user_db_have_cap user_cap K.CAP_HIDE then some (-1, reply)
      else some (out_implicit pwd reply len)
    else if caps = K.CAP_REPLY then
      match select_reply E user_pref with
      | none => none
      | some temp_reply =>
        if user_db_can_reply K E user_cap pwd temp_reply fport then
          some (0, xstrncpy reply temp_reply len)
        else some (out_implicit pwd reply len)
    else if caps = K.CAP_FORWARD then
      if user_db_have_cap user_cap K.CAP_FORWARD then
        let r := E.forward_request user_pref.forward_host user_pref.forward_port lport fport
          reply len
        if r.1 = 0 then
          if user_db_can_reply K E user_cap pwd r.2 fport then some (0, r.2)
          else some (out_implicit pwd r.2 len)
        else if user_db_have_cap user_cap K.CAP_HIDE then some (-1, r.2)
        else some (out_implicit pwd r.2 len)
      else some (out_implicit pwd reply len)
    else if caps = K.CAP_RANDOM then
      if user_db_have_cap user_cap K.CAP_RANDOM then
        (random_ident E (MIN 12 len)).map (fun s => (0, s))
      else some (out_implicit pwd reply len)
    else if caps = K.CAP_NUMERIC then
      if user_db_have_cap user_cap K.CAP_NUMERIC then
        some (0, numeric_ident pwd.pw_uid reply len)
      else some (out_implicit pwd reply len)
    else if caps = K.CAP_RANDOM_NUMERIC then
      if user_db_have_cap user_cap K.CAP_RANDOM_NUMERIC then
        some (0, random_ident_numeric K E reply len)
      else some (out_implicit pwd reply len)
    else some (out_implicit pwd reply len)

/-- The administrator rule of `get_ident` (lines 147-151): the lookup in the
identity's own list and, when that gives NULL, in the default list. -/
def get_ident_user_cap (K : cap_consts) (db : user_db) (pwd : passwd) (lport fport : Nat)
    (laddr faddr : sockaddr_storage) : Option user_cap :=
  match user_db_cap_lookup (user_db_lookup K db pwd.pw_uid) lport fport laddr faddr with
  | some c => some c
  | none => user_db_cap_lookup db.default_user lport fport laddr faddr

/-- The body of `get_ident` once the administrator rule is known (lines
153-275). -/
def get_ident_dispatch (K : cap_consts) (E : collaborators) (user_cap : user_cap) (pwd : passwd)
    (lport fport : Nat) (laddr faddr : sockaddr_storage) (reply : List Char) (len : Nat) :
    Option (Int × List Char) :=
  if user_cap.action = K.ACTION_FORCE then get_ident_force K E user_cap pwd lport fport reply len
  else get_ident_pref K E user_cap pwd lport fport laddr faddr reply len

/-- The function `get_ident`: the return code (0 not hidden, -1 hidden) and the
reply buffer afterwards; `none` when no administrator rule is found and the
NULL pointer is dereferenced. -/
def get_ident (K : cap_consts) (E : collaborators) (db : user_db) (pwd : passwd)
    (lport fport : Nat) (laddr faddr : sockaddr_storage) (reply : List Char) (len : Nat) :
    Option (Int × List Char) :=
  match get_ident_user_cap K db pwd lport fport laddr faddr with
  | none => none
  | some user_cap => get_ident_dispatch K E user_cap pwd lport fport laddr faddr reply len

/-! ## `masq.c` -/

/-- The constant `AF_INET` of `<sys/socket.h>`. -/
def AF_INET : Nat := 2

/-- Modelled from the spec: what `find_masq_entry` uses and the sources do not
hold: `get_addr` of `inet_util.c` (the text of an address to a socket address,
`none` for its return value -1), the largest `unsigned long` of the platform
(for `strtoul`), and the four bytes that a socket address of another family
than `AF_INET` shows at the place of `sin_addr` (what `SIN4(x)->sin_addr.s_addr`
reads there). -/
structure masq_env where
  get_addr : List Char → Option sockaddr_storage
  ULONG_MAX : Nat
  other_family_bytes : sockaddr_storage → Nat

/-- The result of `find_masq_entry`: the return code, the buffers `user` and
`os` afterwards, and the caller's `host`, which the function writes to. -/
structure masq_result where
  ret : Int
  user : List Char
  os : List Char
  host : sockaddr_storage
deriving DecidableEq, Repr

/-- What one pass of the `while` loop of `find_masq_entry` ends in: `continue`
with the host as it is now, or a return. -/
inductive masq_step where
  | next (host : sockaddr_storage)
  | done (r : masq_result)
deriving DecidableEq, Repr

/-- The function `blank_line`: only spaces and tabs. -/
def blank_line (buf : List Char) : Bool :=
  buf.all (fun c => c == ' ' || c == '\t')

/-- The delimiters given to `strtok`: space and tab. -/
def is_delim (c : Char) : Bool := c == ' ' || c == '\t'

/-- Modelled from the C library: `strtok` with the delimiters space and tab:
leading delimiters are skipped; `none` when nothing is left; otherwise the
token up to the next delimiter and the text behind that delimiter, where the
next call goes on. -/
def strtok (s : List Char) : Option (List Char × List Char) :=
  match s.dropWhile is_delim with
  | [] => none
  | c :: r =>
    some ((c :: r).takeWhile (fun x => !is_delim x),
      ((c :: r).dropWhile (fun x => !is_delim x)).drop 1)

/-- Modelled from the C library: `isspace` in the C locale. -/
def isspace (c : Char) : Bool :=
  c == ' ' || c == '\t' || c == '\n' || c == '\r' || c == Char.ofNat 11 || c == Char.ofNat 12

/-- The value of a run of decimal digits. -/
def digits_value (ds : List Char) : Nat :=
  ds.foldl (fun acc c => 10 * acc + (c.toNat - 48)) 0

/-- Modelled from the C library: `strtoul (s, &end, 10)`: white space, an
optional sign, decimal digits; the value (the largest `unsigned long` when it
does not fit, negated modulo when the sign is `-`) and the text at `end`;
without any digit the value is 0 and `end` is `s`. -/
def strtoul (ulong_max : Nat) (s : List Char) : Nat × List Char :=
  let s1 := s.dropWhile isspace
  let neg := s1.head? == some '-'
  let s2 := if s1.head? == some '-' || s1.head? == some '+' then s1.drop 1 else s1
  let ds := s2.takeWhile Char.isDigit
  if ds.isEmpty then (0, s)
  else if digits_value ds > ulong_max then (ulong_max, s2.dropWhile Char.isDigit)
  else if neg then ((ulong_max + 1 - digits_value ds) % (ulong_max + 1), s2.dropWhile Char.isDigit)
  else (digits_value ds, s2.dropWhile Char.isDigit)

/-- The function `htonl`.  The field `s_addr` holds an IPv4 address as the
number that its four bytes, in network order, spell (10.0.0.5 is 0x0A000005);
a bitwise AND acts byte by byte, so that under this reading `htonl` is the
identity. -/
def htonl (x : Nat) : Nat := x

/-- The read `SIN4(x)->sin_addr.s_addr`. -/
def SIN4_s_addr (M : masq_env) (x : sockaddr_storage) : Nat :=
  if x.ss_family = AF_INET then x.s_addr else M.other_family_bytes x

/-- The write `SIN4(x)->sin_addr.s_addr &= mask2`: on an address of another
family it falls on bytes that `sin_equal` does not compare. -/
def SIN4_and (x : sockaddr_storage) (mask2 : Nat) : sockaddr_storage :=
  if x.ss_family = AF_INET then { x with s_addr := x.s_addr &&& mask2 } else x

/-- The mask of a line (lines 134-159 of `find_masq_entry`), for the address
`stemp` of the line and the text `temp` behind its `/`, if any: `none` for
`goto failure`, `some none` when nothing is masked (another family than
`AF_INET`, or no `/`), `some (some mask2)` otherwise.  The 32-bit variable
`mask` receives the `unsigned long` of `strtoul`. -/
def masq_mask (M : masq_env) (stemp : sockaddr_storage) (temp : Option (List Char)) :
    Option (Option Nat) :=
  match temp with
  | none => some none
  | some temp =>
    if stemp.ss_family = AF_INET then
      let mask := (strtoul M.ULONG_MAX temp).1 % 2 ^ 32
      if (strtoul M.ULONG_MAX temp).2 ≠ [] then
        match M.get_addr temp with
        | none => none
        | some st => some (some (SIN4_s_addr M st))
      else if mask < 1 ∨ mask > 31 then none
      else some (some (htonl (0xFFFFFFFF - ((1 <<< (32 - mask)) % 2 ^ 32 - 1))))
    else some none

/-- The two writes of lines 160-161 on one address: the mask of the line, if
it has one, is ANDed into it. -/
def masq_and (x : sockaddr_storage) (mask : Option Nat) : sockaddr_storage :=
  match mask with
  | none => x
  | some mask2 => SIN4_and x mask2

/-- The end of a pass (lines 167-199 of `find_masq_entry`), once the address
of the line equals the host: the user and the os field are taken from `rest`,
the text behind the address field. -/
def masq_fields (host : sockaddr_storage) (user os : List Char) (user_len os_len : Nat)
    (rest : List Char) : masq_result :=
  match strtok rest with
  | none => ⟨-1, user, os, host⟩
  | some (p, rest2) =>
    if p.length ≥ user_len then ⟨-1, user, os, host⟩
    else
      match strtok rest2 with
      | none => ⟨-1, xstrncpy user p user_len, os, host⟩
      | some (q, _) =>
        if q.length ≥ os_len then ⟨-1, xstrncpy user p user_len, os, host⟩
        else ⟨0, xstrncpy user p user_len, xstrncpy os q os_len, host⟩

/-- The comparison of a pass (lines 160-165) and what follows it: the mask, if
any, is ANDed into the address of the line and into the caller's host; a line
whose address then differs from the host is left (`continue`). -/
def masq_compare (host : sockaddr_storage) (user os : List Char) (user_len os_len : Nat)
    (addr : sockaddr_storage) (mask : Option Nat) (rest : List Char) : masq_step :=
  if !sin_equal (masq_and addr mask) (masq_and host mask) then
    masq_step.next (masq_and host mask)
  else masq_step.done (masq_fields (masq_and host mask) user os user_len os_len rest)

/-- The C string that a buffer holds: its bytes up to the first NUL byte, where
`strchr`, `strtok` and `strlen` stop. -/
def c_string (buf : List Char) : List Char :=
  buf.takeWhile (fun c => c != Char.ofNat 0)

/-- One pass of the `while` loop of `find_masq_entry` on the buffer `buf` that
`fgets` filled.  The buffer is read as a C string: a newline behind a NUL byte
is not found. -/
def masq_line (M : masq_env) (host : sockaddr_storage) (user os : List Char)
    (user_len os_len : Nat) (buf : List Char) : masq_step :=
  if !(c_string buf).contains '\n' then masq_step.done ⟨-1, user, os, host⟩
  else
    let buf1 := (c_string buf).takeWhile (fun c => c != '\n')
    if buf1.head? == some '#' then masq_step.next host
    else if blank_line buf1 then masq_step.next host
    else
      let buf2 := buf1.takeWhile (fun c => c != '\r')
      match strtok buf2 with
      | none => masq_step.done ⟨-1, user, os, host⟩
      | some (tok, rest) =>
        let p := tok.takeWhile (fun c => c != '/')
        let temp := if tok.contains '/' then some ((tok.dropWhile (fun c => c != '/')).drop 1)
          else none
        match M.get_addr p with
        | none => masq_step.done ⟨-1, user, os, host⟩
        | some stemp =>
          match masq_mask M stemp temp with
          | none => masq_step.done ⟨-1, user, os, host⟩
          | some mask => masq_compare host user os user_len os_len stemp mask rest

/-- The `while` loop of `find_masq_entry` over the buffers that the successive
calls of `fgets` deliver; at the end of the file the function fails. -/
def masq_scan (M : masq_env) (user os : List Char) (user_len os_len : Nat) :
    sockaddr_storage → List (List Char) → masq_result
  | host, [] => ⟨-1, user, os, host⟩
  | host, buf :: rest =>
    match masq_line M host user os user_len os_len buf with
    | masq_step.next host1 => masq_scan M user os user_len os_len host1 rest
    | masq_step.done r => r

/-- The size of the line buffer, `char buf[4096]`. -/
def MASQ_BUF_SIZE : Nat := 4096

/-- Modelled from the C library: the buffers that successive calls of
`fgets (buf, size, fp)` deliver from the bytes `fp` still to read, `cur` being
the bytes of the current call so far, last read first.  A call ends behind a
newline, or when the buffer holds `size - 1` bytes, or at the end of the
file; at the end of the file a call that read nothing delivers nothing. -/
def fgets_buffers_from (size : Nat) : List Char → List Char → List (List Char)
  | [], cur => if cur.isEmpty then [] else [cur.reverse]
  | c :: fp, cur =>
    if c = '\n' ∨ cur.length + 2 ≥ size then
      (c :: cur).reverse :: fgets_buffers_from size fp []
    else fgets_buffers_from size fp (c :: cur)

/-- The buffers that the calls of `fgets (buf, size, fp)` deliver from a file. -/
def fgets_buffers (size : Nat) (file : List Char) : List (List Char) :=
  fgets_buffers_from size file []

/-- The function `find_masq_entry`.  The map file is `none` when `fopen` fails,
else its bytes; the loop runs over the buffers that `fgets (buf, sizeof (buf),
fp)` delivers: a line with its newline, or a piece of 4095 bytes without one
when the line is longer, or the end of a file that has no last newline. -/
def find_masq_entry (M : masq_env) (fp : Option (List Char)) (host : sockaddr_storage)
    (user : List Char) (user_len : Nat) (os : List Char) (os_len : Nat) : masq_result :=
  match fp with
  | none => ⟨-1, user, os, host⟩
  | some file => masq_scan M user os user_len os_len host (fgets_buffers MASQ_BUF_SIZE file)

/-! ## The specification's reading of rule matching -/

/-- A port filter as the specification words it: it matches when it is absent
or `min ≤ port ≤ max`. -/
def port_filter_matches (port : Nat) : Option port_range → Bool
  | none => true
  | some r => decide (r.min ≤ port ∧ port ≤ r.max)

/-- An address filter as the specification words it: it matches when it is
absent or equal to the address (same family, same raw address bytes). -/
def addr_filter_matches (addr : sockaddr_storage) : Option sockaddr_storage → Bool
  | none => true
  | some a => decide (addr.ss_family = a.ss_family ∧ addr.s_addr = a.s_addr)

/-- A rule matches a connection when all four filters match. -/
def rule_matches (lport fport : Nat) (laddr faddr : sockaddr_storage) (c : user_cap) : Bool :=
  port_filter_matches lport c.lport && port_filter_matches fport c.fport &&
    addr_filter_matches laddr c.src && addr_filter_matches faddr c.dest

/-- The first rule of a sequence, in stored order, that matches. -/
def first_matching (lport fport : Nat) (laddr faddr : sockaddr_storage)
    (rules : List user_cap) : Option user_cap :=
  rules.find? (rule_matches lport fport laddr faddr)

/-! ## Notions used in the statements -/

/-- The reply string that a requester's matched preference selects, when that
preference is of kind REPLY and the string resolves in the identity directory
to a record with the requester's own uid. -/
def pref_own_reply (K : cap_consts) (E : collaborators) (pwd : passwd) (lport fport : Nat)
    (laddr faddr : sockaddr_storage) : Option (List Char) :=
  match user_db_get_pref E pwd lport fport laddr faddr with
  | none => none
  | some p =>
    if p.caps = K.CAP_REPLY then
      match select_reply E p with
      | none => none
      | some t =>
        match E.getpwnam t with
        | none => none
        | some sp => if sp.pw_uid = pwd.pw_uid then some t else none
    else none

/-- The hosts that the leading lines of a table leave behind: `some host1` when
every buffer of `bufs` ends in `continue` (a comment, a blank line, a line
whose address differs), `host1` being the caller's host after them; `none`
when one of them ends the lookup. -/
def masq_skip_all (M : masq_env) (user os : List Char) (user_len os_len : Nat) :
    sockaddr_storage → List (List Char) → Option sockaddr_storage
  | host, [] => some host
  | host, buf :: rest =>
    match masq_line M host user os user_len os_len buf with
    | masq_step.next host1 => masq_skip_all M user os user_len os_len host1 rest
    | masq_step.done _ => none

/-- The text behind the `/` of an address field: free of space, tab, newline,
carriage return and NUL (it may be empty). -/
def mask_ok (t : List Char) : Bool :=
  t.all (fun c => c != ' ' && c != '\t' && c != '\n' && c != '\r' && c != Char.ofNat 0)

/-- A field of a table line: not empty, and free of space, tab, newline,
carriage return and NUL. -/
def field_ok (t : List Char) : Bool :=
  !t.isEmpty && mask_ok t

/-- A line of the file that one call of `fgets` delivers whole: its only
newline is its last byte. -/
def ends_in_newline : List Char → Bool
  | [] => false
  | [c] => c == '\n'
  | c :: r => c != '\n' && ends_in_newline r

/-- A line that fits the line buffer with its newline: at most 4095 bytes. -/
def whole_line (l : List Char) : Bool :=
  ends_in_newline l && decide (l.length + 1 ≤ MASQ_BUF_SIZE)

/-- An address field: a field without `/` that does not start a comment. -/
def addr_ok (t : List Char) : Bool :=
  field_ok t && t.all (fun c => c != '/') && t.head? != some '#'

/-- The address field of a table line: `address` or `address/mask`. -/
def addr_field (atok : List Char) (mtok : Option (List Char)) : List Char :=
  atok ++ (match mtok with
    | none => []
    | some m => '/' :: m)

/-- The table line `address[/mask] user os` with its newline. -/
def masq_text_line (atok : List Char) (mtok : Option (List Char)) (user os : List Char) :
    List Char :=
  addr_field atok mtok ++ ' ' :: (user ++ ' ' :: (os ++ ['\n']))

/-- A line of a well-formed table, by its fields: the address, the text behind
its `/` if it has one, the user and the os. -/
structure masq_entry where
  atok : List Char
  mtok : Option (List Char)
  user : List Char
  os : List Char
deriving DecidableEq, Repr

/-- The text of a line given by its fields. -/
def masq_entry.text (e : masq_entry) : List Char :=
  masq_text_line e.atok e.mtok e.user e.os

/-- The match of a line as the specification words it: the address of the line
ANDed with the line's own mask (nothing is masked without `/mask`) equals the
queried host ANDed with that same mask. -/
def masq_entry_matches (M : masq_env) (host : sockaddr_storage) (e : masq_entry) : Bool :=
  match M.get_addr e.atok with
  | none => false
  | some st =>
    match masq_mask M st e.mtok with
    | none => false
    | some mask => sin_equal (masq_and st mask) (masq_and host mask)

/-- The lookup as the specification words it: the user and the os of the first
line, in file order, that matches the queried host; failure when none does. -/
def masq_spec_lookup (M : masq_env) (host : sockaddr_storage) (table : List masq_entry) :
    Option (List Char × List Char) :=
  (table.find? (masq_entry_matches M host)).map (fun e => (e.user, e.os))

/-! ## Concrete instances -/

/-- The requester of the end-to-end scenarios: `bob`, uid 1000. -/
def bob : passwd := ⟨['b', 'o', 'b'], 1000⟩

/-- The reply string of the end-to-end scenarios. -/
def ghost_name : List Char := ['g', 'h', 'o', 's', 't']

/-- A local user `ghost` other than `bob`. -/
def ghost_user : passwd := ⟨ghost_name, 1001⟩

/-- An identity directory holding the given records: `getpwnam` gives the
first record of that name. -/
def directory (users : List passwd) (name : List Char) : Option passwd :=
  users.find? (fun p => decide (p.pw_name = name))

/-- A forwarding collaborator that always fails with -1 and leaves the buffer
as it was. -/
def failing_forward (_host : sockaddr_storage) (_port _lport _fport : Nat) (buf : List Char)
    (_len : Nat) : Int × List Char :=
  (-1, buf)

/-- Collaborators over a given directory and a given preference list, with a
failing forwarder and a random source that always draws 0. -/
def sample_env (users : List passwd) (prefs : List user_cap) : collaborators where
  getpwnam := directory users
  forward_request := failing_forward
  user_db_get_pref_list := fun _ => prefs
  randval := fun _ _ => 0

/-- A rule without filters and payload of the given capability bits and
action. -/
def plain_rule (caps action : Nat) : user_cap :=
  { caps := caps, action := action, lport := none, fport := none, src := none, dest := none,
    replies := [], forward_host := ⟨0, 0, 0⟩, forward_port := 0 }

/-- A rule without filters of the given bits and action replying one of the
given strings. -/
def reply_rule (caps action : Nat) (replies : List (List Char)) : user_cap :=
  { plain_rule caps action with replies := replies }

/-- The preference of the end-to-end scenarios: kind REPLY, payload `ghost`,
filtered on foreign port 113, any local port and any address. -/
def ghost_pref (K : cap_consts) : user_cap :=
  { reply_rule K.CAP_REPLY 0 [ghost_name] with fport := some ⟨113, 113⟩ }

/-- The store before any rule is added. -/
def empty_db : user_db := ⟨fun _ => [], none⟩

/-- The store of the end-to-end scenarios: the default user of
`user_db_create_default`, and one administrator rule registered for uid 1000. -/
def bob_db (admin : user_cap) : user_db :=
  user_db_add sample_consts (user_db_set_default empty_db (user_db_create_default 0))
    ⟨1000, [admin]⟩

/-- A store whose default sequence is the given list and that has no
identity-specific entry. -/
def default_only_db (rules : List user_cap) : user_db :=
  user_db_set_default empty_db ⟨0, rules⟩

/-- An IPv4 address used as the local end of the sample connections. -/
def local_addr : sockaddr_storage := ⟨2, 0x0A000005, 0⟩

/-- An IPv4 address used as the foreign end of the sample connections. -/
def foreign_addr : sockaddr_storage := ⟨2, 0xC0A80001, 0⟩

/-- A second account of uid 1000: another name for `bob`'s numeric identity. -/
def rob : passwd := ⟨['r', 'o', 'b'], 1000⟩

/-- A requester of uid 1000 whose name starts with the name `bob`. -/
def bobby : passwd := ⟨['b', 'o', 'b', 'b', 'y'], 1000⟩

/-- The store right after start-up without configuration: the default user of
`user_db_create_default` and no identity-specific entry. -/
def catch_all_db : user_db := user_db_set_default empty_db (user_db_create_default 0)

/-- The octet that a run of digits spells, if it is one. -/
def parse_octet (s : List Char) : Option Nat :=
  if s.isEmpty || !s.all Char.isDigit then none
  else if digits_value s ≤ 255 then some (digits_value s) else none

/-- The pieces of a text between its dots. -/
def split_on_dot : List Char → List (List Char)
  | [] => [[]]
  | c :: r =>
    if c = '.' then [] :: split_on_dot r
    else
      match split_on_dot r with
      | [] => [[c]]
      | h :: t => (c :: h) :: t

/-- A `get_addr` that reads dotted quads as IPv4 addresses and `::1` as an
address of family 10 (IPv6), and fails on every other text. -/
def sample_get_addr (s : List Char) : Option sockaddr_storage :=
  if s = [':', ':', '1'] then some ⟨10, 1, 0⟩
  else
    match (split_on_dot s).map parse_octet with
    | [some a, some b, some c, some d] => some ⟨AF_INET, ((a * 256 + b) * 256 + c) * 256 + d, 0⟩
    | _ => none

/-- A platform with 64-bit `unsigned long` and the sample `get_addr`. -/
def sample_masq_env : masq_env where
  get_addr := sample_get_addr
  ULONG_MAX := 2 ^ 64 - 1
  other_family_bytes := fun _ => 0

/-- The host 10.0.0.5. -/
def host_10_0_0_5 : sockaddr_storage := ⟨AF_INET, 0x0A000005, 0⟩

theorem port_match_eq (port : Nat) (f : Option port_range) :
    port_match port f = port_filter_matches port f := by
  cases f with
  | none => rfl
  | some r =>
    simp only [port_match, port_filter_matches]
    by_cases h1 : r.min ≤ port <;> by_cases h2 : port ≤ r.max <;> simp [h1, h2]

theorem addr_match_eq (addr : sockaddr_storage) (f : Option sockaddr_storage) :
    addr_match addr f = addr_filter_matches addr f := by
  cases f with
  | none => rfl
  | some a =>
    simp only [addr_match, addr_filter_matches, sin_equal]
    by_cases h1 : addr.ss_family = a.ss_family <;> by_cases h2 : addr.s_addr = a.s_addr <;>
      simp [h1, h2]

theorem user_db_cap_lookup_list_eq (lport fport : Nat) (laddr faddr : sockaddr_storage)
    (rules : List user_cap) :
    user_db_cap_lookup_list lport fport laddr faddr rules
      = first_matching lport fport laddr faddr rules := by
  induction rules with
  | nil => rfl
  | cons c cur ih =>
    simp only [user_db_cap_lookup_list, first_matching, List.find?, rule_matches,
      port_match_eq, addr_match_eq]
    simp only [first_matching, rule_matches] at ih
    rw [ih]
    cases port_filter_matches lport c.lport <;> cases port_filter_matches fport c.fport <;>
      cases addr_filter_matches laddr c.src <;> cases addr_filter_matches faddr c.dest <;> rfl

theorem first_matching_eq_some_iff (lport fport : Nat) (laddr faddr : sockaddr_storage)
    (rules : List user_cap) (c : user_cap) :
    first_matching lport fport laddr faddr rules = some c ↔
      rule_matches lport fport laddr faddr c = true ∧
        ∃ before after, rules = before ++ c :: after ∧
          ∀ a ∈ before, rule_matches lport fport laddr faddr a = false := by
  unfold first_matching
  rw [List.find?_eq_some]
  simp

theorem xstrncpy_fits (dest s : List Char) (n : Nat) (h : s.length < n) :
    xstrncpy dest s n = s := by
  unfold xstrncpy
  have hn : n ≠ 0 := by omega
  simp only [hn, if_false]
  exact List.take_of_length_le (by omega)

theorem have_cap_zero (c : user_cap) (flag : Nat) (h : c.caps = 0) :
    user_db_have_cap c flag = false := by
  simp [user_db_have_cap, h]

/-- The spoof check when the candidate names nobody in the directory. -/
theorem can_reply_unknown (K : cap_consts) (E : collaborators) (c : user_cap) (pwd : passwd)
    (reply : List Char) (fport : Nat) (h : E.getpwnam reply = none) :
    user_db_can_reply K E c pwd reply fport
      = (user_db_have_cap c K.CAP_SPOOF &&
          (decide (1024 ≤ fport) || user_db_have_cap c K.CAP_SPOOF_PRIVPORT)) := by
  simp only [user_db_can_reply, h]
  by_cases hp : fport < 1024
  · have hq : ¬ 1024 ≤ fport := by omega
    cases user_db_have_cap c K.CAP_SPOOF <;> cases user_db_have_cap c K.CAP_SPOOF_PRIVPORT <;>
      simp [hp, hq]
  · have hq : 1024 ≤ fport := by omega
    cases user_db_have_cap c K.CAP_SPOOF <;> cases user_db_have_cap c K.CAP_SPOOF_PRIVPORT <;>
      simp [hp, hq]

/-- The spoof check when the candidate names a record with the requester's
uid. -/
theorem can_reply_same_uid (K : cap_consts) (E : collaborators) (c : user_cap) (pwd : passwd)
    (reply : List Char) (fport : Nat) (sp : passwd) (h : E.getpwnam reply = some sp)
    (hu : sp.pw_uid = pwd.pw_uid) :
    user_db_can_reply K E c pwd reply fport = true := by
  simp [user_db_can_reply, h, hu]

/-- The spoof check when the candidate names a record with another uid. -/
theorem can_reply_other_uid (K : cap_consts) (E : collaborators) (c : user_cap) (pwd : passwd)
    (reply : List Char) (fport : Nat) (sp : passwd) (h : E.getpwnam reply = some sp)
    (hu : sp.pw_uid ≠ pwd.pw_uid) :
    user_db_can_reply K E c pwd reply fport
      = (user_db_have_cap c K.CAP_SPOOF_ALL && (user_db_have_cap c K.CAP_SPOOF &&
          (decide (1024 ≤ fport) || user_db_have_cap c K.CAP_SPOOF_PRIVPORT))) := by
  simp only [user_db_can_reply, h, hu, if_false]
  by_cases hp : fport < 1024
  · have hq : ¬ 1024 ≤ fport := by omega
    cases user_db_have_cap c K.CAP_SPOOF_ALL <;> cases user_db_have_cap c K.CAP_SPOOF <;>
      cases user_db_have_cap c K.CAP_SPOOF_PRIVPORT <;> simp [hp, hq]
  · have hq : 1024 ≤ fport := by omega
    cases user_db_have_cap c K.CAP_SPOOF_ALL <;> cases user_db_have_cap c K.CAP_SPOOF <;>
      cases user_db_have_cap c K.CAP_SPOOF_PRIVPORT <;> simp [hp, hq]

theorem get_ident_of_rule (K : cap_consts) (E : collaborators) (db : user_db) (pwd : passwd)
    (lport fport : Nat) (laddr faddr : sockaddr_storage) (reply : List Char) (len : Nat)
    (c : user_cap) (hsel : get_ident_user_cap K db pwd lport fport laddr faddr = some c) :
    get_ident K E db pwd lport fport laddr faddr reply len
      = get_ident_dispatch K E c pwd lport fport laddr faddr reply len := by
  simp [get_ident, hsel]

theorem select_reply_in_range (E : collaborators) (c : user_cap)
    (h : E.randval 0 c.replies.length < c.replies.length) :
    ∃ s ∈ c.replies, select_reply E c = some s := by
  refine ⟨c.replies.get ⟨_, h⟩, List.get_mem _ _ _, ?_⟩
  unfold select_reply
  exact List.get?_eq_get h

theorem random_ident_loop_some (E : collaborators)
    (hr : ∀ k n, 0 < n → E.randval k n < n) (count : Nat) :
    ∀ i, ∃ s, random_ident_loop E count i = some s := by
  induction count with
  | zero => intro i; exact ⟨[], rfl⟩
  | succ n ih =>
    intro i
    have hlt : E.randval i valid.length < valid.length := hr i _ (by decide)
    obtain ⟨rest, hrest⟩ := ih (i + 1)
    refine ⟨valid.get ⟨_, hlt⟩ :: rest, ?_⟩
    simp only [random_ident_loop, List.get?_eq_get hlt, hrest, Option.map_some']

theorem random_ident_some (E : collaborators) (hr : ∀ k n, 0 < n → E.randval k n < n)
    (len : Nat) (hlen : 0 < len) : ∃ s, random_ident E len = some s := by
  unfold random_ident
  have h0 : len ≠ 0 := by omega
  simp only [h0, if_false]
  exact random_ident_loop_some E hr _ 0

theorem MIN_pos (x y : Nat) (hx : 0 < x) (hy : 0 < y) : 0 < MIN x y := by
  unfold MIN
  split <;> assumption

/-- The case labels, pair by pair. -/
theorem label_facts (K : cap_consts) :
    K.CAP_HIDE ≠ K.CAP_REPLY ∧ K.CAP_HIDE ≠ K.CAP_FORWARD ∧ K.CAP_REPLY ≠ K.CAP_FORWARD ∧
      K.CAP_RANDOM ≠ K.CAP_HIDE ∧ K.CAP_RANDOM ≠ K.CAP_FORWARD ∧
      K.CAP_NUMERIC ≠ K.CAP_HIDE ∧ K.CAP_NUMERIC ≠ K.CAP_FORWARD ∧
      K.CAP_RANDOM_NUMERIC ≠ K.CAP_HIDE ∧ K.CAP_RANDOM_NUMERIC ≠ K.CAP_FORWARD := by
  have h := K.labels_nodup
  simp only [List.nodup_cons, List.mem_cons, List.mem_singleton, not_or, List.not_mem_nil,
    not_false_eq_true, and_true] at h
  obtain ⟨⟨h1, h2, h3, h4, h5⟩, ⟨h6, h7, h8, h9⟩, ⟨h10, h11, h12⟩, _⟩ := h
  exact ⟨Ne.symm h2, Ne.symm h6, h1, Ne.symm h10, Ne.symm h7, Ne.symm h11, Ne.symm h8,
    Ne.symm h12, Ne.symm h9⟩

/-- The preference dispatch on a matched preference of kind REPLY. -/
theorem get_ident_pref_reply (K : cap_consts) (E : collaborators) (c : user_cap) (pwd : passwd)
    (lport fport : Nat) (laddr faddr : sockaddr_storage) (reply : List Char) (len : Nat)
    (p : user_cap) (t : List Char)
    (hp : user_db_get_pref E pwd lport fport laddr faddr = some p)
    (hk : p.caps = K.CAP_REPLY) (ht : select_reply E p = some t) :
    get_ident_pref K E c pwd lport fport laddr faddr reply len
      = if user_db_can_reply K E c pwd t fport then some (0, xstrncpy reply t len)
        else some (out_implicit pwd reply len) := by
  have hne : K.CAP_REPLY ≠ K.CAP_HIDE := Ne.symm (label_facts K).1
  simp [get_ident_pref, hp, hk, hne, ht]

/-- The preference dispatch on a matched preference of kind FORWARD that the
administrator rule grants. -/
theorem get_ident_pref_forward (K : cap_consts) (E : collaborators) (c : user_cap)
    (pwd : passwd) (lport fport : Nat) (laddr faddr : sockaddr_storage) (reply : List Char)
    (len : Nat) (p : user_cap)
    (hp : user_db_get_pref E pwd lport fport laddr faddr = some p)
    (hk : p.caps = K.CAP_FORWARD) (hg : user_db_have_cap c K.CAP_FORWARD = true) :
    get_ident_pref K E c pwd lport fport laddr faddr reply len
      = if (E.forward_request p.forward_host p.forward_port lport fport reply len).1 = 0 then
          if user_db_can_reply K E c pwd
              (E.forward_request p.forward_host p.forward_port lport fport reply len).2 fport
          then some (0, (E.forward_request p.forward_host p.forward_port lport fport reply len).2)
          else some (out_implicit pwd
              (E.forward_request p.forward_host p.forward_port lport fport reply len).2 len)
        else if user_db_have_cap c K.CAP_HIDE then
          some (-1, (E.forward_request p.forward_host p.forward_port lport fport reply len).2)
        else some (out_implicit pwd
            (E.forward_request p.forward_host p.forward_port lport fport reply len).2 len) := by
  have h1 : K.CAP_FORWARD ≠ K.CAP_HIDE := Ne.symm (label_facts K).2.1
  have h2 : K.CAP_FORWARD ≠ K.CAP_REPLY := Ne.symm (label_facts K).2.2.1
  simp [get_ident_pref, hp, hk, h1, h2, hg]

/-- The three outcomes of the preference dispatch: it hides exactly under the
hide condition; otherwise it is undefined or returns 0, and it returns 0 when
the capacity is at least 1, the draws are in range and a matched REPLY
preference has a payload. -/
theorem get_ident_pref_outcome (K : cap_consts) (E : collaborators) (c : user_cap)
    (pwd : passwd) (lport fport : Nat) (laddr faddr : sockaddr_storage) (reply : List Char)
    (len : Nat) :
    ((user_db_have_cap c K.CAP_HIDE = true ∧
        ∃ p, user_db_get_pref E pwd lport fport laddr faddr = some p ∧
          (p.caps = K.CAP_HIDE ∨
            (p.caps = K.CAP_FORWARD ∧ user_db_have_cap c K.CAP_FORWARD = true ∧
              (E.forward_request p.forward_host p.forward_port lport fport reply len).1 ≠ 0))) ∧
      ∃ s, get_ident_pref K E c pwd lport fport laddr faddr reply len = some (-1, s)) ∨
    (¬ (user_db_have_cap c K.CAP_HIDE = true ∧
        ∃ p, user_db_get_pref E pwd lport fport laddr faddr = some p ∧
          (p.caps = K.CAP_HIDE ∨
            (p.caps = K.CAP_FORWARD ∧ user_db_have_cap c K.CAP_FORWARD = true ∧
              (E.forward_request p.forward_host p.forward_port lport fport reply len).1 ≠ 0))) ∧
      (get_ident_pref K E c pwd lport fport laddr faddr reply len = none ∨
        ∃ s, get_ident_pref K E c pwd lport fport laddr faddr reply len = some (0, s)) ∧
      (0 < len → (∀ k n, 0 < n → E.randval k n < n) →
        (∀ p, user_db_get_pref E pwd lport fport laddr faddr = some p →
          p.caps = K.CAP_REPLY → p.replies ≠ []) →
        ∃ s, get_ident_pref K E c pwd lport fport laddr faddr reply len = some (0, s))) := by
  obtain ⟨-, hHF, hRF, -, -, -, -, -, -⟩ := label_facts K
  have zero : ∀ {P : Prop} (s : List Char),
      get_ident_pref K E c pwd lport fport laddr faddr reply len = some (0, s) →
      (get_ident_pref K E c pwd lport fport laddr faddr reply len = none ∨
        ∃ s, get_ident_pref K E c pwd lport fport laddr faddr reply len = some (0, s)) ∧
      (0 < len → (∀ k n, 0 < n → E.randval k n < n) → P →
        ∃ s, get_ident_pref K E c pwd lport fport laddr faddr reply len = some (0, s)) :=
    fun s hs => ⟨Or.inr ⟨s, hs⟩, fun _ _ _ => ⟨s, hs⟩⟩
  cases hp : user_db_get_pref E pwd lport fport laddr faddr with
  | none =>
    refine Or.inr ⟨by simp, zero (xstrncpy reply pwd.pw_name len) ?_⟩
    simp [get_ident_pref, hp, out_implicit]
  | some p =>
    by_cases h1 : p.caps = K.CAP_HIDE
    · by_cases hh : user_db_have_cap c K.CAP_HIDE = true
      · exact Or.inl ⟨⟨hh, p, rfl, Or.inl h1⟩, reply, by simp [get_ident_pref, hp, h1, hh]⟩
      · refine Or.inr ⟨by simp [hh], zero (xstrncpy reply pwd.pw_name len) ?_⟩
        simp [get_ident_pref, hp, h1, hh, out_implicit]
    · by_cases h2 : p.caps = K.CAP_REPLY
      · have hrf : ¬ p.caps = K.CAP_FORWARD := by rw [h2]; exact hRF
        have hne : K.CAP_REPLY ≠ K.CAP_HIDE := by rw [← h2]; exact h1
        cases ht : select_reply E p with
        | none =>
          have hres : get_ident_pref K E c pwd lport fport laddr faddr reply len = none := by
            simp [get_ident_pref, hp, h2, hne, ht]
          refine Or.inr ⟨by simp [h1, hrf], Or.inl hres, ?_⟩
          intro _ hrand hrep
          have hpos : 0 < p.replies.length := List.length_pos.2 (hrep p rfl h2)
          obtain ⟨t, _, ht2⟩ := select_reply_in_range E p (hrand 0 _ hpos)
          rw [ht] at ht2
          cases ht2
        | some t =>
          have hres := get_ident_pref_reply K E c pwd lport fport laddr faddr reply len p t hp
            h2 ht
          by_cases hc : user_db_can_reply K E c pwd t fport = true
          · refine Or.inr ⟨by simp [h1, hrf], zero (xstrncpy reply t len) ?_⟩
            rw [hres]; simp [hc]
          · refine Or.inr ⟨by simp [h1, hrf], zero (xstrncpy reply pwd.pw_name len) ?_⟩
            rw [hres]; simp [hc, out_implicit]
      · by_cases h3 : p.caps = K.CAP_FORWARD
        · by_cases hf : user_db_have_cap c K.CAP_FORWARD = true
          · have hres := get_ident_pref_forward K E c pwd lport fport laddr faddr reply len p hp
              h3 hf
            by_cases hr : (E.forward_request p.forward_host p.forward_port lport fport reply
                len).1 = 0
            · by_cases hc : user_db_can_reply K E c pwd
                  (E.forward_request p.forward_host p.forward_port lport fport reply len).2 fport
                  = true
              · refine Or.inr ⟨by simp [h1, hr], zero
                  (E.forward_request p.forward_host p.forward_port lport fport reply len).2 ?_⟩
                rw [hres]; simp [hr, hc]
              · refine Or.inr ⟨by simp [h1, hr], zero (xstrncpy
                  (E.forward_request p.forward_host p.forward_port lport fport reply len).2
                  pwd.pw_name len) ?_⟩
                rw [hres]; simp [hr, hc, out_implicit]
            · by_cases hh : user_db_have_cap c K.CAP_HIDE = true
              · refine Or.inl ⟨⟨hh, p, rfl, Or.inr ⟨h3, hf, hr⟩⟩,
                  (E.forward_request p.forward_host p.forward_port lport fport reply len).2, ?_⟩
                rw [hres]; simp [hr, hh]
              · refine Or.inr ⟨by simp [hh], zero (xstrncpy
                  (E.forward_request p.forward_host p.forward_port lport fport reply len).2
                  pwd.pw_name len) ?_⟩
                rw [hres]; simp [hr, hh, out_implicit]
          · refine Or.inr ⟨by simp [h1, hf], zero (xstrncpy reply pwd.pw_name len) ?_⟩
            simp [get_ident_pref, hp, h3, hf, out_implicit, Ne.symm hHF, Ne.symm hRF]
        · refine Or.inr ⟨by simp [h1, h3], ?_, ?_⟩
          · simp only [get_ident_pref, hp, h1, h2, h3, if_false, out_implicit]
            cases random_ident E (MIN 12 len) with
            | none => split_ifs <;> first | exact Or.inl rfl | exact Or.inr ⟨_, rfl⟩
            | some rs => split_ifs <;> exact Or.inr ⟨_, rfl⟩
          · intro hlen hrand _
            obtain ⟨rs, hrs⟩ := random_ident_some E hrand (MIN 12 len)
              (MIN_pos 12 len (by decide) hlen)
            simp only [get_ident_pref, hp, h1, h2, h3, if_false, hrs, Option.map_some',
              out_implicit]
            split_ifs <;> exact ⟨_, rfl⟩

/-- A non-zero flag that shares no bit with a case label cannot be or-ed to
another value so as to give that label. -/
theorem or_flag_ne_label (a flag label : Nat) (hflag : flag ≠ 0) (hdis : label &&& flag = 0) :
    a ||| flag ≠ label := by
  intro h
  have habs : (a ||| flag) &&& flag = flag := by
    apply Nat.eq_of_testBit_eq
    intro i
    simp only [Nat.testBit_and, Nat.testBit_or]
    cases a.testBit i <;> cases flag.testBit i <;> rfl
  rw [h, hdis] at habs
  exact hflag habs.symm

/-- The FORCE dispatch of a rule whose bits are CAP_REPLY together with a flag
(SPOOF, SPOOF_ALL or SPOOF_PRIVPORT, or any non-zero `flag` sharing no bit with
the six case labels): no case of the switch is taken and the system name is
copied, for every assignment of the constants. -/
theorem get_ident_force_flagged_reply (K : cap_consts) (E : collaborators) (c : user_cap)
    (pwd : passwd) (lport fport : Nat) (reply : List Char) (len : Nat) (flag : Nat)
    (hcaps : c.caps = K.CAP_REPLY ||| flag) (hflag : flag ≠ 0)
    (hdis : ∀ label ∈ [K.CAP_REPLY, K.CAP_FORWARD, K.CAP_HIDE, K.CAP_RANDOM, K.CAP_NUMERIC,
      K.CAP_RANDOM_NUMERIC], label &&& flag = 0) :
    get_ident_force K E c pwd lport fport reply len = some (out_implicit pwd reply len) := by
  have hne : ∀ label ∈ [K.CAP_REPLY, K.CAP_FORWARD, K.CAP_HIDE, K.CAP_RANDOM, K.CAP_NUMERIC,
      K.CAP_RANDOM_NUMERIC], c.caps ≠ label := fun label hl => by
    rw [hcaps]
    exact or_flag_ne_label _ flag label hflag (hdis label hl)
  simp only [List.mem_cons, List.mem_singleton, List.not_mem_nil, or_false, forall_eq_or_imp,
    forall_eq] at hne
  obtain ⟨h1, h2, h3, h4, h5, h6⟩ := hne
  simp [get_ident_force, h1, h2, h3, h4, h5, h6]

/-! ## The administrator rule of a decision -/

/-- C1: the administrator rule that `get_ident` uses is the first rule, in
stored order, of the identity's own sequence (`user_db_lookup` of its uid)
whose four filters all match; when the identity has no sequence or none of its
rules matches, it is the first such rule of the default sequence; `get_ident`
dispatches on exactly that rule; and when the default sequence holds a rule
with all four filters absent, a (matching) rule is always found. -/
theorem get_ident_rule_is_first_match (K : cap_consts) (E : collaborators) (db : user_db)
    (pwd : passwd) (lport fport : Nat) (laddr faddr : sockaddr_storage) (reply : List Char)
    (len : Nat) :
    get_ident_user_cap K db pwd lport fport laddr faddr
        = (match (user_db_lookup K db pwd.pw_uid).bind
              (fun ui => first_matching lport fport laddr faddr ui.cap_list) with
            | some c => some c
            | none => db.default_user.bind
                (fun d => first_matching lport fport laddr faddr d.cap_list))
      ∧ get_ident K E db pwd lport fport laddr faddr reply len
        = (get_ident_user_cap K db pwd lport fport laddr faddr).bind
            (fun c => get_ident_dispatch K E c pwd lport fport laddr faddr reply len)
      ∧ ((∃ d, db.default_user = some d ∧ ∃ c ∈ d.cap_list,
            c.lport = none ∧ c.fport = none ∧ c.src = none ∧ c.dest = none) →
          ∃ c, get_ident_user_cap K db pwd lport fport laddr faddr = some c ∧
            rule_matches lport fport laddr faddr c = true) := by
  have hown : user_db_cap_lookup (user_db_lookup K db pwd.pw_uid) lport fport laddr faddr
      = (user_db_lookup K db pwd.pw_uid).bind
          (fun ui => first_matching lport fport laddr faddr ui.cap_list) := by
    cases user_db_lookup K db pwd.pw_uid with
    | none => rfl
    | some ui => simp [user_db_cap_lookup, user_db_cap_lookup_list_eq]
  have hdef : user_db_cap_lookup db.default_user lport fport laddr faddr
      = db.default_user.bind (fun d => first_matching lport fport laddr faddr d.cap_list) := by
    cases db.default_user with
    | none => rfl
    | some d => simp [user_db_cap_lookup, user_db_cap_lookup_list_eq]
  have h1 : get_ident_user_cap K db pwd lport fport laddr faddr
        = (match (user_db_lookup K db pwd.pw_uid).bind
              (fun ui => first_matching lport fport laddr faddr ui.cap_list) with
            | some c => some c
            | none => db.default_user.bind
                (fun d => first_matching lport fport laddr faddr d.cap_list)) := by
    unfold get_ident_user_cap
    rw [hown, hdef]
  refine ⟨h1, ?_, ?_⟩
  · unfold get_ident
    cases get_ident_user_cap K db pwd lport fport laddr faddr <;> rfl
  · rintro ⟨d, hd, c, hc, h_l, h_f, h_s, h_d⟩
    have hm : rule_matches lport fport laddr faddr c = true := by
      simp [rule_matches, h_l, h_f, h_s, h_d, port_filter_matches, addr_filter_matches]
    rw [h1]
    cases hq : (user_db_lookup K db pwd.pw_uid).bind
        (fun ui => first_matching lport fport laddr faddr ui.cap_list) with
    | some c1 =>
      refine ⟨c1, rfl, ?_⟩
      cases hu : user_db_lookup K db pwd.pw_uid with
      | none => rw [hu] at hq; simp at hq
      | some ui =>
        rw [hu] at hq
        simp only [Option.some_bind] at hq
        exact ((first_matching_eq_some_iff _ _ _ _ _ _).1 hq).1
    | none =>
      simp only [hd, Option.some_bind]
      cases hf : first_matching lport fport laddr faddr d.cap_list with
      | some c2 => exact ⟨c2, rfl, ((first_matching_eq_some_iff _ _ _ _ _ _).1 hf).1⟩
      | none =>
        unfold first_matching at hf
        rw [List.find?_eq_none] at hf
        exact absurd hm (hf c hc)

/-! ## Forced replies -/

/-- C2 (as the code has it): for every administrator rule with action FORCE
whose capability bits are exactly CAP_REPLY (no accompanying flag) and whose
payload is s1..sn, with the reply draw inside the payload, every `get_ident`
decision that selects this rule returns 0 (not hidden) and stores one of
s1..sn, cut by `xstrncpy` to the capacity and whole when the capacity holds
it; this for every identity directory and every preference store. -/
theorem forced_reply_discloses_payload (K : cap_consts) (E : collaborators) (db : user_db)
    (pwd : passwd) (lport fport : Nat) (laddr faddr : sockaddr_storage) (reply : List Char)
    (len : Nat) (c : user_cap)
    (hsel : get_ident_user_cap K db pwd lport fport laddr faddr = some c)
    (hforce : c.action = K.ACTION_FORCE) (hkind : c.caps = K.CAP_REPLY)
    (hdraw : E.randval 0 c.replies.length < c.replies.length) :
    ∃ s ∈ c.replies,
      get_ident K E db pwd lport fport laddr faddr reply len = some (0, xstrncpy reply s len) ∧
      (s.length < len →
        get_ident K E db pwd lport fport laddr faddr reply len = some (0, s)) := by
  obtain ⟨s, hs, hsome⟩ := select_reply_in_range E c hdraw
  have hres : get_ident K E db pwd lport fport laddr faddr reply len
      = some (0, xstrncpy reply s len) := by
    rw [get_ident_of_rule K E db pwd lport fport laddr faddr reply len c hsel]
    simp [get_ident_dispatch, get_ident_force, hforce, hkind, hsome]
  refine ⟨s, hs, hres, ?_⟩
  intro hfit
  rw [hres, xstrncpy_fits reply s len hfit]

/-- C2, instance: a forced reply naming the local user `ghost` is disclosed for
`bob` although the rule grants no SPOOF_ALL and whatever `bob` prefers. -/
theorem forced_reply_discloses_payload_witness :
    get_ident_user_cap sample_consts
        (default_only_db [reply_rule sample_consts.CAP_REPLY sample_consts.ACTION_FORCE
          [ghost_name]]) bob 40000 113 local_addr foreign_addr
      = some (reply_rule sample_consts.CAP_REPLY sample_consts.ACTION_FORCE [ghost_name]) ∧
    ∃ s ∈ (reply_rule sample_consts.CAP_REPLY sample_consts.ACTION_FORCE [ghost_name]).replies,
      get_ident sample_consts (sample_env [bob, ghost_user] [plain_rule 8 0])
          (default_only_db [reply_rule sample_consts.CAP_REPLY sample_consts.ACTION_FORCE
            [ghost_name]]) bob 40000 113 local_addr foreign_addr [] 64
        = some (0, xstrncpy [] s 64) ∧
      (s.length < 64 →
        get_ident sample_consts (sample_env [bob, ghost_user] [plain_rule 8 0])
            (default_only_db [reply_rule sample_consts.CAP_REPLY sample_consts.ACTION_FORCE
              [ghost_name]]) bob 40000 113 local_addr foreign_addr [] 64
          = some (0, s)) :=
  ⟨by decide,
    forced_reply_discloses_payload sample_consts (sample_env [bob, ghost_user] [plain_rule 8 0])
      (default_only_db [reply_rule sample_consts.CAP_REPLY sample_consts.ACTION_FORCE
        [ghost_name]]) bob 40000 113 local_addr foreign_addr [] 64
      (reply_rule sample_consts.CAP_REPLY sample_consts.ACTION_FORCE [ghost_name])
      (by decide) (by decide) (by decide) (by decide)⟩

/-- C2, counterexample to the claim as stated: the selected rule has action
FORCE, kind REPLY with payload `ghost`, and the accompanying flag SPOOF; the
capacity 64 holds `ghost`; `get_ident` discloses the system name `bob`, which
is not in the payload. -/
theorem forced_reply_with_flag_discloses_name :
    get_ident_user_cap sample_consts
        (default_only_db [reply_rule (sample_consts.CAP_REPLY ||| sample_consts.CAP_SPOOF)
          sample_consts.ACTION_FORCE [ghost_name]]) bob 40000 113 local_addr foreign_addr
      = some (reply_rule (sample_consts.CAP_REPLY ||| sample_consts.CAP_SPOOF)
          sample_consts.ACTION_FORCE [ghost_name]) ∧
    get_ident sample_consts (sample_env [bob] [])
        (default_only_db [reply_rule (sample_consts.CAP_REPLY ||| sample_consts.CAP_SPOOF)
          sample_consts.ACTION_FORCE [ghost_name]]) bob 40000 113 local_addr foreign_addr [] 64
      = some (0, bob.pw_name) ∧
    bob.pw_name ∉ [ghost_name] := by
  decide

/-! ## The catch-all rule -/

/-- C3 (as the code has it): when no identity-specific rule matches and the
rule selected from the default sequence is the catch-all rule built by
`user_db_create_default` (no filters, no capability bit, action not FORCE),
`get_ident` returns 0 (not hidden) and stores, cut by `xstrncpy` to the
capacity, the identity's system name - except when the matched preference is
of kind REPLY and its selected string resolves in the identity directory to a
record with the identity's own uid: then that string is stored.  This for
every directory, every forwarder and every preference store whose reply draw
stays inside the payload. -/
theorem catch_all_discloses_name_or_own_alias (K : cap_consts) (E : collaborators)
    (db : user_db) (pwd : passwd) (lport fport : Nat) (laddr faddr : sockaddr_storage)
    (reply : List Char) (len : Nat) (c : user_cap) (u : Nat)
    (hown : user_db_cap_lookup (user_db_lookup K db pwd.pw_uid) lport fport laddr faddr = none)
    (hdef : user_db_cap_lookup db.default_user lport fport laddr faddr = some c)
    (hc : c ∈ (user_db_create_default u).cap_list)
    (hact : c.action ≠ K.ACTION_FORCE)
    (hdraw : ∀ p, user_db_get_pref E pwd lport fport laddr faddr = some p →
      p.caps = K.CAP_REPLY → E.randval 0 p.replies.length < p.replies.length) :
    get_ident K E db pwd lport fport laddr faddr reply len
      = some (0, xstrncpy reply
          ((pref_own_reply K E pwd lport fport laddr faddr).getD pwd.pw_name) len) := by
  have hsel : get_ident_user_cap K db pwd lport fport laddr faddr = some c := by
    simp [get_ident_user_cap, hown, hdef]
  have hcaps : c.caps = 0 := by
    simp only [user_db_create_default, List.mem_singleton] at hc
    rw [hc]
  have hno : ∀ flag, user_db_have_cap c flag = false := fun flag => have_cap_zero c flag hcaps
  rw [get_ident_of_rule K E db pwd lport fport laddr faddr reply len c hsel]
  simp only [get_ident_dispatch, hact, if_false]
  cases hp : user_db_get_pref E pwd lport fport laddr faddr with
  | none => simp [get_ident_pref, pref_own_reply, hp, out_implicit]
  | some p =>
    by_cases hk : p.caps = K.CAP_REPLY
    · obtain ⟨t, _, ht⟩ := select_reply_in_range E p (hdraw p hp hk)
      rw [get_ident_pref_reply K E c pwd lport fport laddr faddr reply len p t hp hk ht]
      cases hg : E.getpwnam t with
      | none =>
        rw [can_reply_unknown K E c pwd t fport hg]
        simp [hno, pref_own_reply, hp, hk, ht, hg, out_implicit]
      | some sp =>
        by_cases hu : sp.pw_uid = pwd.pw_uid
        · rw [can_reply_same_uid K E c pwd t fport sp hg hu]
          simp [pref_own_reply, hp, hk, ht, hg, hu]
        · rw [can_reply_other_uid K E c pwd t fport sp hg hu]
          simp [hno, pref_own_reply, hp, hk, ht, hg, hu, out_implicit]
    · simp [get_ident_pref, pref_own_reply, hp, hk, hno, out_implicit]

/-- C3, instance: under the catch-all rule `bob`, who prefers the reply `ghost`
(no such local user), is disclosed as `bob`. -/
theorem catch_all_discloses_name_or_own_alias_witness :
    user_db_cap_lookup (user_db_lookup sample_consts catch_all_db bob.pw_uid) 40000 113
        local_addr foreign_addr = none ∧
      get_ident sample_consts (sample_env [bob] [ghost_pref sample_consts]) catch_all_db bob
          40000 113 local_addr foreign_addr [] 64
        = some (0, xstrncpy []
            ((pref_own_reply sample_consts (sample_env [bob] [ghost_pref sample_consts]) bob
              40000 113 local_addr foreign_addr).getD bob.pw_name) 64) ∧
      xstrncpy []
          ((pref_own_reply sample_consts (sample_env [bob] [ghost_pref sample_consts]) bob
            40000 113 local_addr foreign_addr).getD bob.pw_name) 64 = bob.pw_name :=
  ⟨by decide,
    catch_all_discloses_name_or_own_alias sample_consts
      (sample_env [bob] [ghost_pref sample_consts]) catch_all_db bob 40000 113 local_addr
      foreign_addr [] 64 (plain_rule 0 0) 0 (by decide) (by decide) (by decide) (by decide)
      (fun p hp _ => by
        have hq : user_db_get_pref (sample_env [bob] [ghost_pref sample_consts]) bob 40000 113
            local_addr foreign_addr = some (ghost_pref sample_consts) := by decide
        rw [hq] at hp
        cases hp
        decide),
    by decide⟩

/-- C3, counterexample to the claim as stated: no identity-specific rule, the
catch-all rule of `user_db_create_default` selected from the default sequence,
a capacity of 64; `bob` (uid 1000) prefers the reply `rob`, the name of a
second account of uid 1000; `get_ident` discloses `rob`, not the system name
`bob`. -/
theorem catch_all_discloses_own_alias :
    user_db_cap_lookup (user_db_lookup sample_consts catch_all_db bob.pw_uid) 40000 113
        local_addr foreign_addr = none ∧
      user_db_cap_lookup catch_all_db.default_user 40000 113 local_addr foreign_addr
        = some (plain_rule 0 0) ∧
      plain_rule 0 0 ∈ (user_db_create_default 0).cap_list ∧
      (plain_rule 0 0).action ≠ sample_consts.ACTION_FORCE ∧
      get_ident sample_consts
          (sample_env [bob, rob] [reply_rule sample_consts.CAP_REPLY 0 [rob.pw_name]])
          catch_all_db bob 40000 113 local_addr foreign_addr [] 64
        = some (0, rob.pw_name) ∧
      rob.pw_name ≠ bob.pw_name := by
  decide

/-! ## The spoof authorization check -/

/-- C4 (as the code has it): when the candidate string names an existing local
identity whose uid differs from the requester's, `user_db_can_reply` returns
true if and only if the rule grants SPOOF_ALL and SPOOF and, in addition,
either the foreign port is at least 1024 or the rule grants SPOOF_PRIVPORT. -/
theorem can_reply_other_local_user (K : cap_consts) (E : collaborators) (c : user_cap)
    (pwd : passwd) (reply : List Char) (fport : Nat) (sp : passwd)
    (h : E.getpwnam reply = some sp) (hu : sp.pw_uid ≠ pwd.pw_uid) :
    user_db_can_reply K E c pwd reply fport = true ↔
      (user_db_have_cap c K.CAP_SPOOF_ALL = true ∧ user_db_have_cap c K.CAP_SPOOF = true ∧
        (1024 ≤ fport ∨ user_db_have_cap c K.CAP_SPOOF_PRIVPORT = true)) := by
  rw [can_reply_other_uid K E c pwd reply fport sp h hu]
  simp

/-- C4, instance: `bob` naming the local user `ghost` on foreign port 113 under
a rule granting SPOOF_ALL, SPOOF and SPOOF_PRIVPORT. -/
theorem can_reply_other_local_user_witness :
    (sample_env [bob, ghost_user] []).getpwnam ghost_name = some ghost_user ∧
      ghost_user.pw_uid ≠ bob.pw_uid ∧
      (user_db_can_reply sample_consts (sample_env [bob, ghost_user] []) (plain_rule 7 1) bob
          ghost_name 113 = true ↔
        (user_db_have_cap (plain_rule 7 1) sample_consts.CAP_SPOOF_ALL = true ∧
          user_db_have_cap (plain_rule 7 1) sample_consts.CAP_SPOOF = true ∧
          (1024 ≤ 113 ∨
            user_db_have_cap (plain_rule 7 1) sample_consts.CAP_SPOOF_PRIVPORT = true))) :=
  ⟨by decide, by decide,
    can_reply_other_local_user sample_consts (sample_env [bob, ghost_user] []) (plain_rule 7 1)
      bob ghost_name 113 ghost_user (by decide) (by decide)⟩

/-- C4, counterexample to the claim as stated: `ghost` is a local user other
than `bob`, the rule grants SPOOF_ALL (and nothing else), and yet
`user_db_can_reply` returns false, on an unprivileged foreign port. -/
theorem spoof_all_alone_is_denied :
    (sample_env [bob, ghost_user] []).getpwnam ghost_name = some ghost_user ∧
      ghost_user.pw_uid ≠ bob.pw_uid ∧
      user_db_have_cap (plain_rule sample_consts.CAP_SPOOF_ALL 1) sample_consts.CAP_SPOOF_ALL
        = true ∧
      user_db_can_reply sample_consts (sample_env [bob, ghost_user] [])
        (plain_rule sample_consts.CAP_SPOOF_ALL 1) bob ghost_name 40000 = false := by
  decide

/-- C5: for every granting rule (whatever its capability bits), every foreign
port and every requester whose own name resolves in the identity directory to
the requester's own record, `user_db_can_reply` on the requester's own name
returns true. -/
theorem can_reply_own_name (K : cap_consts) (E : collaborators) (c : user_cap) (pwd : passwd)
    (fport : Nat) (h : E.getpwnam pwd.pw_name = some pwd) :
    user_db_can_reply K E c pwd pwd.pw_name fport = true :=
  can_reply_same_uid K E c pwd pwd.pw_name fport pwd h rfl

/-- C5, instance: `bob` replying `bob` to a privileged port under a rule that
grants nothing. -/
theorem can_reply_own_name_witness :
    (sample_env [bob, ghost_user] []).getpwnam bob.pw_name = some bob ∧
      user_db_can_reply sample_consts (sample_env [bob, ghost_user] []) (plain_rule 0 1) bob
        bob.pw_name 113 = true :=
  ⟨by decide,
    can_reply_own_name sample_consts (sample_env [bob, ghost_user] []) (plain_rule 0 1) bob 113
      (by decide)⟩

/-- C6: when the candidate string names no existing local identity (`getpwnam`
fails), `user_db_can_reply` returns true if and only if the rule grants SPOOF
and, in addition, either the foreign port is at least 1024 or the rule grants
SPOOF_PRIVPORT. -/
theorem can_reply_unknown_name (K : cap_consts) (E : collaborators) (c : user_cap)
    (pwd : passwd) (reply : List Char) (fport : Nat) (h : E.getpwnam reply = none) :
    user_db_can_reply K E c pwd reply fport = true ↔
      (user_db_have_cap c K.CAP_SPOOF = true ∧
        (fport ≥ 1024 ∨ user_db_have_cap c K.CAP_SPOOF_PRIVPORT = true)) := by
  rw [can_reply_unknown K E c pwd reply fport h]
  simp

/-- C6, instance: `bob` replying `ghost`, a name unknown to the directory, to
port 113 under a rule granting SPOOF only: both sides of the equivalence are
false. -/
theorem can_reply_unknown_name_witness :
    (sample_env [bob] []).getpwnam ghost_name = none ∧
      (user_db_can_reply sample_consts (sample_env [bob] []) (plain_rule 1 1) bob ghost_name 113
          = true ↔
        (user_db_have_cap (plain_rule 1 1) sample_consts.CAP_SPOOF = true ∧
          (113 ≥ 1024 ∨
            user_db_have_cap (plain_rule 1 1) sample_consts.CAP_SPOOF_PRIVPORT = true))) :=
  ⟨by decide,
    can_reply_unknown_name sample_consts (sample_env [bob] []) (plain_rule 1 1) bob ghost_name
      113 (by decide)⟩

/-! ## The end-to-end scenarios -/

/-- C7 (as the code has it): `bob` (uid 1000) prefers the reply `ghost` on
foreign port 113 (any local port, any address), no local user is named
`ghost`, and the administrator rule selected for the connection is not FORCE
and grants SPOOF and, the foreign port 113 being privileged, SPOOF_PRIVPORT
(REPLY and SPOOF_ALL are not looked at); then for every connection with
foreign port 113 and every capacity of at least 6, `get_ident` returns 0 and
discloses `ghost`. -/
theorem bob_discloses_ghost (K : cap_consts) (E : collaborators) (db : user_db)
    (lport : Nat) (laddr faddr : sockaddr_storage) (reply : List Char) (len : Nat)
    (c : user_cap)
    (hpref : E.user_db_get_pref_list bob = [ghost_pref K])
    (hsel : get_ident_user_cap K db bob lport 113 laddr faddr = some c)
    (hact : c.action ≠ K.ACTION_FORCE)
    (hspoof : user_db_have_cap c K.CAP_SPOOF = true)
    (hpriv : user_db_have_cap c K.CAP_SPOOF_PRIVPORT = true)
    (hghost : E.getpwnam ghost_name = none)
    (hdraw : E.randval 0 1 < 1)
    (hlen : 6 ≤ len) :
    get_ident K E db bob lport 113 laddr faddr reply len = some (0, ghost_name) := by
  have hp : user_db_get_pref E bob lport 113 laddr faddr = some (ghost_pref K) := by
    simp [user_db_get_pref, hpref, user_db_cap_lookup_list, ghost_pref, reply_rule, plain_rule,
      port_match, addr_match]
  have ht : select_reply E (ghost_pref K) = some ghost_name := by
    have h0 : E.randval 0 1 = 0 := by omega
    simp [select_reply, ghost_pref, reply_rule, plain_rule, h0]
  rw [get_ident_of_rule K E db bob lport 113 laddr faddr reply len c hsel]
  simp only [get_ident_dispatch, hact, if_false]
  rw [get_ident_pref_reply K E c bob lport 113 laddr faddr reply len (ghost_pref K) ghost_name
    hp rfl ht, can_reply_unknown K E c bob ghost_name 113 hghost]
  have hfit : ghost_name.length < len := by
    have : ghost_name.length = 5 := rfl
    omega
  simp [hspoof, hpriv, xstrncpy_fits reply ghost_name len hfit]

/-- C7, instance: the administrator rule registered for `bob` grants REPLY,
SPOOF and SPOOF_PRIVPORT, not SPOOF_ALL. -/
theorem bob_discloses_ghost_witness :
    get_ident_user_cap sample_consts (bob_db (plain_rule 133 1)) bob 40000 113 local_addr
        foreign_addr = some (plain_rule 133 1) ∧
      user_db_have_cap (plain_rule 133 1) sample_consts.CAP_REPLY = true ∧
      user_db_have_cap (plain_rule 133 1) sample_consts.CAP_SPOOF_ALL = false ∧
      get_ident sample_consts (sample_env [bob] [ghost_pref sample_consts])
          (bob_db (plain_rule 133 1)) bob 40000 113 local_addr foreign_addr [] 64
        = some (0, ghost_name) :=
  ⟨by decide, by decide, by decide,
    bob_discloses_ghost sample_consts (sample_env [bob] [ghost_pref sample_consts])
      (bob_db (plain_rule 133 1)) 40000 local_addr foreign_addr [] 64 (plain_rule 133 1)
      (by decide) (by decide) (by decide) (by decide) (by decide) (by decide) (by decide)
      (by decide)⟩

/-- C7, counterexample to the claim as stated: `bob` prefers `ghost` on foreign
port 113, no local user is named `ghost`, the administrator rule selected for
`bob` is not FORCE and grants REPLY and SPOOF but not SPOOF_ALL; on a
connection with foreign port 113 `get_ident` discloses `bob`, not `ghost`. -/
theorem bob_on_port_113_is_not_ghost :
    (sample_env [bob] [ghost_pref sample_consts]).user_db_get_pref_list bob
        = [ghost_pref sample_consts] ∧
      (sample_env [bob] [ghost_pref sample_consts]).getpwnam ghost_name = none ∧
      get_ident_user_cap sample_consts (bob_db (plain_rule 129 1)) bob 40000 113 local_addr
        foreign_addr = some (plain_rule 129 1) ∧
      (plain_rule 129 1).action ≠ sample_consts.ACTION_FORCE ∧
      user_db_have_cap (plain_rule 129 1) sample_consts.CAP_REPLY = true ∧
      user_db_have_cap (plain_rule 129 1) sample_consts.CAP_SPOOF = true ∧
      user_db_have_cap (plain_rule 129 1) sample_consts.CAP_SPOOF_ALL = false ∧
      get_ident sample_consts (sample_env [bob] [ghost_pref sample_consts])
          (bob_db (plain_rule 129 1)) bob 40000 113 local_addr foreign_addr [] 64
        = some (0, bob.pw_name) ∧
      bob.pw_name ≠ ghost_name := by
  decide

/-- C9: for every decision whose administrator rule is not FORCE, `get_ident`
returns -1 (hide) if and only if the administrator rule grants HIDE and either
the matched preference is of kind HIDE, or it is of kind FORWARD, the
administrator rule also grants FORWARD and the forwarding collaborator fails;
in every other case it returns 0 with a disclosed string (the C code being
defined there: a capacity of at least 1, draws of `randval n` below `n`, a
matched REPLY preference with a payload). -/
theorem hide_iff_granted_and_requested (K : cap_consts) (E : collaborators) (db : user_db)
    (pwd : passwd) (lport fport : Nat) (laddr faddr : sockaddr_storage) (reply : List Char)
    (len : Nat) (c : user_cap)
    (hsel : get_ident_user_cap K db pwd lport fport laddr faddr = some c)
    (hact : c.action ≠ K.ACTION_FORCE) :
    ((∃ s, get_ident K E db pwd lport fport laddr faddr reply len = some (-1, s)) ↔
        (user_db_have_cap c K.CAP_HIDE = true ∧
          ∃ p, user_db_get_pref E pwd lport fport laddr faddr = some p ∧
            (p.caps = K.CAP_HIDE ∨
              (p.caps = K.CAP_FORWARD ∧ user_db_have_cap c K.CAP_FORWARD = true ∧
                (E.forward_request p.forward_host p.forward_port lport fport reply len).1
                  ≠ 0)))) ∧
      (¬ (user_db_have_cap c K.CAP_HIDE = true ∧
          ∃ p, user_db_get_pref E pwd lport fport laddr faddr = some p ∧
            (p.caps = K.CAP_HIDE ∨
              (p.caps = K.CAP_FORWARD ∧ user_db_have_cap c K.CAP_FORWARD = true ∧
                (E.forward_request p.forward_host p.forward_port lport fport reply len).1
                  ≠ 0))) →
        0 < len → (∀ k n, 0 < n → E.randval k n < n) →
        (∀ p, user_db_get_pref E pwd lport fport laddr faddr = some p →
          p.caps = K.CAP_REPLY → p.replies ≠ []) →
        ∃ s, get_ident K E db pwd lport fport laddr faddr reply len = some (0, s)) := by
  rw [get_ident_of_rule K E db pwd lport fport laddr faddr reply len c hsel]
  simp only [get_ident_dispatch, hact, if_false]
  rcases get_ident_pref_outcome K E c pwd lport fport laddr faddr reply len with
    ⟨hcond, hres⟩ | ⟨hncond, hshape, hdef⟩
  · exact ⟨⟨fun _ => hcond, fun _ => hres⟩, fun hn => absurd hcond hn⟩
  · refine ⟨⟨?_, fun h => absurd h hncond⟩, fun _ hlen hrand hrep => hdef hlen hrand hrep⟩
    rintro ⟨s, hs⟩
    rcases hshape with hnone | ⟨s0, hs0⟩
    · rw [hnone] at hs; cases hs
    · rw [hs0] at hs
      have h01 : (0 : Int) = -1 := congrArg Prod.fst (Option.some.inj hs)
      exact absurd h01 (by decide)

/-- C9, instance: `bob` prefers to hide and the administrator rule grants HIDE:
the decision is -1. -/
theorem hide_iff_granted_and_requested_witness :
    get_ident_user_cap sample_consts (bob_db (plain_rule 8 1)) bob 40000 113 local_addr
        foreign_addr = some (plain_rule 8 1) ∧
      (plain_rule 8 1).action ≠ sample_consts.ACTION_FORCE ∧
      get_ident sample_consts (sample_env [bob] [plain_rule 8 0]) (bob_db (plain_rule 8 1)) bob
          40000 113 local_addr foreign_addr [] 64 = some (-1, []) ∧
      (user_db_have_cap (plain_rule 8 1) sample_consts.CAP_HIDE = true ∧
        ∃ p, user_db_get_pref (sample_env [bob] [plain_rule 8 0]) bob 40000 113 local_addr
            foreign_addr = some p ∧
          (p.caps = sample_consts.CAP_HIDE ∨
            (p.caps = sample_consts.CAP_FORWARD ∧
              user_db_have_cap (plain_rule 8 1) sample_consts.CAP_FORWARD = true ∧
              ((sample_env [bob] [plain_rule 8 0]).forward_request p.forward_host
                p.forward_port 40000 113 [] 64).1 ≠ 0))) :=
  ⟨by decide, by decide, by decide,
    (hide_iff_granted_and_requested sample_consts (sample_env [bob] [plain_rule 8 0])
      (bob_db (plain_rule 8 1)) bob 40000 113 local_addr foreign_addr [] 64 (plain_rule 8 1)
      (by decide) (by decide)).1.1 ⟨[], by decide⟩⟩

/-- C10 (as the code has it): when forwarding is attempted and the forwarding
collaborator fails, then (a) if the FORWARD kind and relay target come from a
matched preference gated by an administrator rule that is not FORCE, the
outcome is hide (-1) if the administrator rule grants HIDE and otherwise the
implicit default (0, the system name copied by `xstrncpy`); (b) if they come
from a FORCE administrator rule's own payload, `get_ident` returns what the
collaborator returned, failure code and buffer, whether HIDE is granted or
not. -/
theorem forward_failure_outcome (K : cap_consts) (E : collaborators) (db : user_db)
    (pwd : passwd) (lport fport : Nat) (laddr faddr : sockaddr_storage) (reply : List Char)
    (len : Nat) (c : user_cap)
    (hsel : get_ident_user_cap K db pwd lport fport laddr faddr = some c) :
    (c.action ≠ K.ACTION_FORCE →
      ∀ p, user_db_get_pref E pwd lport fport laddr faddr = some p →
        p.caps = K.CAP_FORWARD → user_db_have_cap c K.CAP_FORWARD = true →
        (E.forward_request p.forward_host p.forward_port lport fport reply len).1 ≠ 0 →
        get_ident K E db pwd lport fport laddr faddr reply len
          = some (if user_db_have_cap c K.CAP_HIDE = true then
              (-1, (E.forward_request p.forward_host p.forward_port lport fport reply len).2)
            else
              (0, xstrncpy
                (E.forward_request p.forward_host p.forward_port lport fport reply len).2
                pwd.pw_name len))) ∧
    (c.action = K.ACTION_FORCE → c.caps = K.CAP_FORWARD →
      get_ident K E db pwd lport fport laddr faddr reply len
        = some (E.forward_request c.forward_host c.forward_port lport fport reply len)) := by
  rw [get_ident_of_rule K E db pwd lport fport laddr faddr reply len c hsel]
  constructor
  · intro hact p hp hk hf hr
    simp only [get_ident_dispatch, hact, if_false]
    rw [get_ident_pref_forward K E c pwd lport fport laddr faddr reply len p hp hk hf]
    simp only [hr, if_false, out_implicit]
    split_ifs <;> rfl
  · intro hact hk
    have hne : K.CAP_FORWARD ≠ K.CAP_REPLY := Ne.symm (label_facts K).2.2.1
    simp [get_ident_dispatch, get_ident_force, hact, hk, hne]

/-- C10, instance: `bob` prefers to forward, the administrator rule grants
FORWARD but not HIDE, the forwarder fails: `bob` is disclosed. -/
theorem forward_failure_outcome_witness :
    get_ident_user_cap sample_consts (bob_db (plain_rule 256 1)) bob 40000 113 local_addr
        foreign_addr = some (plain_rule 256 1) ∧
      get_ident sample_consts (sample_env [bob] [plain_rule 256 0]) (bob_db (plain_rule 256 1))
          bob 40000 113 local_addr foreign_addr [] 64 = some (0, bob.pw_name) :=
  ⟨by decide,
    (forward_failure_outcome sample_consts (sample_env [bob] [plain_rule 256 0])
      (bob_db (plain_rule 256 1)) bob 40000 113 local_addr foreign_addr [] 64 (plain_rule 256 1)
      (by decide)).1 (by decide) (plain_rule 256 0) (by decide) (by decide) (by decide)
      (by decide)⟩

/-- C10, counterexample to the claim as stated: the selected administrator rule
is FORCE of kind FORWARD, so it does not grant HIDE; the forwarding
collaborator fails; `get_ident` returns -1 (hide) and not the implicit default
(0 with the system name `bob`). -/
theorem forced_forward_failure_hides :
    get_ident_user_cap sample_consts
        (bob_db (plain_rule sample_consts.CAP_FORWARD sample_consts.ACTION_FORCE)) bob 40000 113
        local_addr foreign_addr
      = some (plain_rule sample_consts.CAP_FORWARD sample_consts.ACTION_FORCE) ∧
      user_db_have_cap (plain_rule sample_consts.CAP_FORWARD sample_consts.ACTION_FORCE)
        sample_consts.CAP_HIDE = false ∧
      ((sample_env [bob] []).forward_request
        (plain_rule sample_consts.CAP_FORWARD sample_consts.ACTION_FORCE).forward_host
        (plain_rule sample_consts.CAP_FORWARD sample_consts.ACTION_FORCE).forward_port
        40000 113 [] 64).1 ≠ 0 ∧
      get_ident sample_consts (sample_env [bob] [])
          (bob_db (plain_rule sample_consts.CAP_FORWARD sample_consts.ACTION_FORCE)) bob 40000
          113 local_addr foreign_addr [] 64
        = some (-1, []) ∧
      get_ident sample_consts (sample_env [bob] [])
          (bob_db (plain_rule sample_consts.CAP_FORWARD sample_consts.ACTION_FORCE)) bob 40000
          113 local_addr foreign_addr [] 64
        ≠ some (out_implicit bob [] 64) := by
  decide

/-! ## The capacity of the reply buffer -/

theorem xstrncpy_length_le (dest s : List Char) (n : Nat) (hn : 1 ≤ n) :
    (xstrncpy dest s n).length ≤ n - 1 := by
  have h0 : n ≠ 0 := by omega
  simp only [xstrncpy, h0, if_false, List.length_take]
  exact Nat.min_le_left _ _

theorem snprintf_str_length_le (buf s : List Char) (n : Nat) (hn : 1 ≤ n) :
    (snprintf_str buf s n).length ≤ n - 1 := by
  have h0 : n ≠ 0 := by omega
  simp only [snprintf_str, h0, if_false, List.length_take]
  exact Nat.min_le_left _ _

/-- The loop of `random_ident` stores exactly `count` characters, all of the
alphabet. -/
theorem random_ident_loop_spec (E : collaborators) (count : Nat) :
    ∀ i s, random_ident_loop E count i = some s → s.length = count ∧ ∀ ch ∈ s, ch ∈ valid := by
  induction count with
  | zero =>
    intro i s h
    simp only [random_ident_loop, Option.some.injEq] at h
    subst h
    simp
  | succ n ih =>
    intro i s h
    simp only [random_ident_loop] at h
    cases hv : valid.get? (E.randval i valid.length) with
    | none => rw [hv] at h; cases h
    | some ch =>
      rw [hv] at h
      cases hr : random_ident_loop E n (i + 1) with
      | none => rw [hr] at h; cases h
      | some rest =>
        rw [hr] at h
        simp only [Option.map_some', Option.some.injEq] at h
        subst h
        obtain ⟨hl, hm⟩ := ih (i + 1) rest hr
        refine ⟨by simp [hl], ?_⟩
        intro x hx
        rcases List.mem_cons.1 hx with hx | hx
        · rw [hx]; exact List.get?_mem hv
        · exact hm x hx

/-- The function `random_ident` stores exactly `len - 1` characters, all of
the alphabet. -/
theorem random_ident_spec (E : collaborators) (len : Nat) (s : List Char)
    (h : random_ident E len = some s) : s.length = len - 1 ∧ ∀ ch ∈ s, ch ∈ valid := by
  unfold random_ident at h
  split at h
  · cases h
  · exact random_ident_loop_spec E (len - 1) 0 s h

theorem MIN_le_right (x y : Nat) : MIN x y ≤ y := by
  unfold MIN
  split <;> omega

theorem get_ident_force_fits (K : cap_consts) (E : collaborators) (c : user_cap) (pwd : passwd)
    (lport fport : Nat) (reply : List Char) (len : Nat) (s : List Char) (hlen : 1 ≤ len)
    (hfwd : ∀ host port lp fp buf, (E.forward_request host port lp fp buf len).1 = 0 →
      (E.forward_request host port lp fp buf len).2.length ≤ len - 1)
    (h : get_ident_force K E c pwd lport fport reply len = some (0, s)) :
    s.length ≤ len - 1 := by
  simp only [get_ident_force] at h
  split_ifs at h
  · cases hs : select_reply E c with
    | none => rw [hs] at h; cases h
    | some t =>
      rw [hs] at h
      simp only [Option.map_some', Option.some.injEq, Prod.mk.injEq, true_and] at h
      rw [← h]
      exact xstrncpy_length_le reply t len hlen
  · have hr := Option.some.inj h
    have h1 := hfwd c.forward_host c.forward_port lport fport reply (by rw [hr])
    rw [hr] at h1
    exact h1
  · simp at h
  · cases hs : random_ident E (MIN 12 len) with
    | none => rw [hs] at h; cases h
    | some t =>
      rw [hs] at h
      simp only [Option.map_some', Option.some.injEq, Prod.mk.injEq, true_and] at h
      rw [← h, (random_ident_spec E _ t hs).1]
      have := MIN_le_right 12 len
      omega
  · simp only [Option.some.injEq, Prod.mk.injEq, true_and] at h
    rw [← h]
    exact snprintf_str_length_le _ _ len hlen
  · simp only [Option.some.injEq, Prod.mk.injEq, true_and] at h
    rw [← h]
    exact snprintf_str_length_le _ _ len hlen
  · simp only [out_implicit, Option.some.injEq, Prod.mk.injEq, true_and] at h
    rw [← h]
    exact xstrncpy_length_le reply _ len hlen

theorem get_ident_pref_fits (K : cap_consts) (E : collaborators) (c : user_cap) (pwd : passwd)
    (lport fport : Nat) (laddr faddr : sockaddr_storage) (reply : List Char) (len : Nat)
    (s : List Char) (hlen : 1 ≤ len)
    (hfwd : ∀ host port lp fp buf, (E.forward_request host port lp fp buf len).1 = 0 →
      (E.forward_request host port lp fp buf len).2.length ≤ len - 1)
    (h : get_ident_pref K E c pwd lport fport laddr faddr reply len = some (0, s)) :
    s.length ≤ len - 1 := by
  have himp : ∀ buf, some (out_implicit pwd buf len) = some ((0 : Int), s) →
      s.length ≤ len - 1 := by
    intro buf hb
    simp only [out_implicit, Option.some.injEq, Prod.mk.injEq, true_and] at hb
    rw [← hb]
    exact xstrncpy_length_le buf _ len hlen
  simp only [get_ident_pref] at h
  cases hp : user_db_get_pref E pwd lport fport laddr faddr with
  | none => rw [hp] at h; exact himp reply h
  | some p =>
    rw [hp] at h
    simp only at h
    split_ifs at h with h1 h2 h3 h4 h5 h6 h7 h8 h9 h10 h11 h12 h13 h14
    all_goals first
      | exact himp _ h
      | (simp at h; done)
      | skip
    · cases hs : select_reply E p with
      | none => rw [hs] at h; cases h
      | some t =>
        rw [hs] at h
        simp only at h
        split_ifs at h
        · simp only [Option.some.injEq, Prod.mk.injEq, true_and] at h
          rw [← h]
          exact xstrncpy_length_le reply t len hlen
        · exact himp _ h
    · simp only [Option.some.injEq, Prod.mk.injEq, true_and] at h
      rw [← h]
      exact hfwd _ _ _ _ _ (by assumption)
    · cases hs : random_ident E (MIN 12 len) with
      | none => rw [hs] at h; cases h
      | some t =>
        rw [hs] at h
        simp only [Option.map_some', Option.some.injEq, Prod.mk.injEq, true_and] at h
        rw [← h, (random_ident_spec E _ t hs).1]
        have := MIN_le_right 12 len
        omega
    · simp only [Option.some.injEq, Prod.mk.injEq, true_and] at h
      rw [← h]
      exact snprintf_str_length_le _ _ len hlen
    · simp only [Option.some.injEq, Prod.mk.injEq, true_and] at h
      rw [← h]
      exact snprintf_str_length_le _ _ len hlen

/-- C11: for every capacity of at least 1 and every input, whenever `get_ident`
returns 0 the string it stored has at most capacity - 1 characters, on every
dispatch branch, given that the forwarding collaborator stores at most
capacity - 1 characters when it returns 0 (`xstrncpy` and `snprintf` cut to
the size they are given). -/
theorem get_ident_reply_fits (K : cap_consts) (E : collaborators) (db : user_db) (pwd : passwd)
    (lport fport : Nat) (laddr faddr : sockaddr_storage) (reply : List Char) (len : Nat)
    (s : List Char) (hlen : 1 ≤ len)
    (hfwd : ∀ host port lp fp buf, (E.forward_request host port lp fp buf len).1 = 0 →
      (E.forward_request host port lp fp buf len).2.length ≤ len - 1)
    (h : get_ident K E db pwd lport fport laddr faddr reply len = some (0, s)) :
    s.length ≤ len - 1 := by
  unfold get_ident at h
  cases hc : get_ident_user_cap K db pwd lport fport laddr faddr with
  | none => rw [hc] at h; cases h
  | some c =>
    rw [hc] at h
    simp only [get_ident_dispatch] at h
    split_ifs at h
    · exact get_ident_force_fits K E c pwd lport fport reply len s hlen hfwd h
    · exact get_ident_pref_fits K E c pwd lport fport laddr faddr reply len s hlen hfwd h

/-- C11, instance: `bob`, disclosed by the catch-all rule into a buffer of
capacity 3, is stored as two characters. -/
theorem get_ident_reply_fits_witness :
    get_ident sample_consts (sample_env [bob] []) catch_all_db bob 40000 113 local_addr
        foreign_addr [] 3 = some (0, ['b', 'o']) ∧
      (['b', 'o'] : List Char).length ≤ 3 - 1 :=
  ⟨by decide,
    get_ident_reply_fits sample_consts (sample_env [bob] []) catch_all_db bob 40000 113
      local_addr foreign_addr [] 3 ['b', 'o'] (by decide)
      (fun _ _ _ _ _ h => by simp [sample_env, failing_forward] at h) (by decide)⟩

/-- The RANDOM branch of `get_ident`, under a FORCE rule of kind RANDOM or a
granted preference of kind RANDOM: with a capacity of at least 1 and draws of
`randval n` below `n`, the decision returns 0 and stores exactly
`MIN 12 len - 1` characters, each of the 62-symbol alphabet. -/
theorem get_ident_random_branch (K : cap_consts) (E : collaborators) (db : user_db)
    (pwd : passwd) (lport fport : Nat) (laddr faddr : sockaddr_storage) (reply : List Char)
    (len : Nat) (c : user_cap)
    (hsel : get_ident_user_cap K db pwd lport fport laddr faddr = some c)
    (hlen : 1 ≤ len) (hrand : ∀ k n, 0 < n → E.randval k n < n)
    (hbranch : (c.action = K.ACTION_FORCE ∧ c.caps = K.CAP_RANDOM) ∨
      (c.action ≠ K.ACTION_FORCE ∧ user_db_have_cap c K.CAP_RANDOM = true ∧
        ∃ p, user_db_get_pref E pwd lport fport laddr faddr = some p ∧
          p.caps = K.CAP_RANDOM)) :
    ∃ s, get_ident K E db pwd lport fport laddr faddr reply len = some (0, s) ∧
      s.length = MIN 12 len - 1 ∧ ∀ ch ∈ s, ch ∈ valid := by
  obtain ⟨s, hs⟩ := random_ident_some E hrand (MIN 12 len) (MIN_pos 12 len (by decide) hlen)
  obtain ⟨hl, hm⟩ := random_ident_spec E (MIN 12 len) s hs
  have hn := K.labels_nodup
  simp only [List.nodup_cons, List.mem_cons, List.mem_singleton, not_or, List.not_mem_nil,
    not_false_eq_true, and_true] at hn
  obtain ⟨⟨-, -, h14, -, -⟩, ⟨-, h24, -, -⟩, ⟨h34, -, -⟩, -⟩ := hn
  refine ⟨s, ?_, hl, hm⟩
  rw [get_ident_of_rule K E db pwd lport fport laddr faddr reply len c hsel]
  rcases hbranch with ⟨hact, hk⟩ | ⟨hact, hg, p, hp, hk⟩
  · simp [get_ident_dispatch, get_ident_force, hact, hk, Ne.symm h14, Ne.symm h24,
      Ne.symm h34, hs]
  · simp [get_ident_dispatch, get_ident_pref, hact, hp, hk, Ne.symm h14, Ne.symm h24,
      Ne.symm h34, hg, hs]

/-- C12, the code at a capacity of 64: under a FORCE rule of kind RANDOM the
decision stores 11 characters of the alphabet, where `min(12, capacity - 1)`
is 12. -/
theorem random_reply_has_eleven_characters :
    get_ident_user_cap sample_consts
        (default_only_db [plain_rule sample_consts.CAP_RANDOM sample_consts.ACTION_FORCE]) bob
        40000 113 local_addr foreign_addr
      = some (plain_rule sample_consts.CAP_RANDOM sample_consts.ACTION_FORCE) ∧
    get_ident sample_consts (sample_env [bob] [])
        (default_only_db [plain_rule sample_consts.CAP_RANDOM sample_consts.ACTION_FORCE]) bob
        40000 113 local_addr foreign_addr [] 64
      = some (0, List.replicate 11 '0') ∧
    (List.replicate 11 '0').length = 11 ∧
    MIN 12 (64 - 1) = 12 := by
  decide

/-! ## The hash table of the store -/

theorem user_db_lookup_bucket_eq_find (uid : Nat) (bucket : List user_info) :
    user_db_lookup_bucket uid bucket = bucket.find? (fun ui => decide (ui.user = uid)) := by
  induction bucket with
  | nil => rfl
  | cons ui cur ih =>
    by_cases h : ui.user = uid
    · simp [user_db_lookup_bucket, List.find?, h]
    · simp [user_db_lookup_bucket, List.find?, h, ih]

/-- The bucket `i` after a sequence of `user_db_add` calls: the added records
that hash to `i`, the last added first, in front of what the bucket held. -/
theorem user_hash_after_adds (K : cap_consts) (adds : List user_info) :
    ∀ (db : user_db) (i : Nat),
      (adds.foldl (user_db_add K) db).user_hash i
        = (adds.reverse.filter (fun ui => decide (USER_DB_HASH K ui.user = i)))
            ++ db.user_hash i := by
  induction adds with
  | nil => intro db i; simp
  | cons ui rest ih =>
    intro db i
    rw [List.foldl_cons, ih (user_db_add K db ui) i]
    by_cases h : USER_DB_HASH K ui.user = i
    · simp [user_db_add, h, List.filter_append, List.filter]
    · have h2 : ¬ i = USER_DB_HASH K ui.user := fun e => h e.symm
      simp [user_db_add, h, h2, List.filter_append, List.filter]

theorem find_in_own_bucket (K : cap_consts) (uid : Nat) (l : List user_info) :
    (l.filter (fun ui => decide (USER_DB_HASH K ui.user = USER_DB_HASH K uid))).find?
        (fun ui => decide (ui.user = uid))
      = l.find? (fun ui => decide (ui.user = uid)) := by
  induction l with
  | nil => rfl
  | cons ui rest ih =>
    by_cases h : ui.user = uid
    · simp [List.filter, List.find?, h]
    · by_cases hb : USER_DB_HASH K ui.user = USER_DB_HASH K uid
      · simp [List.filter, List.find?, h, hb, ih]
      · simp [List.filter, List.find?, h, hb, ih]

/-- C17: after any sequence of `user_db_add` calls on the empty store,
`user_db_lookup uid` returns the most recently added record whose identity is
`uid` (the first such record of the sequence read backwards), and returns
NULL if and only if no added record has that identity - whatever other
identities share the bucket `uid mod DB_HASH_SIZE`. -/
theorem user_db_lookup_most_recent (K : cap_consts) (adds : List user_info) (uid : Nat) :
    user_db_lookup K (adds.foldl (user_db_add K) empty_db) uid
        = adds.reverse.find? (fun ui => decide (ui.user = uid)) ∧
      (user_db_lookup K (adds.foldl (user_db_add K) empty_db) uid = none ↔
        ∀ ui ∈ adds, ui.user ≠ uid) ∧
      (∀ ui, user_db_lookup K (adds.foldl (user_db_add K) empty_db) uid = some ui ↔
        ui.user = uid ∧ ∃ earlier later, adds = earlier ++ ui :: later ∧
          ∀ x ∈ later, x.user ≠ uid) := by
  have hmain : user_db_lookup K (adds.foldl (user_db_add K) empty_db) uid
      = adds.reverse.find? (fun ui => decide (ui.user = uid)) := by
    unfold user_db_lookup
    rw [user_db_lookup_bucket_eq_find, user_hash_after_adds K adds empty_db]
    simp only [empty_db, List.append_nil]
    exact find_in_own_bucket K uid adds.reverse
  refine ⟨hmain, ?_, ?_⟩
  · rw [hmain, List.find?_eq_none]
    simp
  · intro ui
    rw [hmain, List.find?_eq_some]
    constructor
    · rintro ⟨hu, as, bs, hrev, hno⟩
      refine ⟨by simpa using hu, bs.reverse, as.reverse, ?_, ?_⟩
      · have := congrArg List.reverse hrev
        simpa using this
      · intro x hx
        have := hno x (List.mem_reverse.1 hx)
        simpa using this
    · rintro ⟨hu, earlier, later, hadds, hno⟩
      refine ⟨by simpa using hu, later.reverse, earlier.reverse, ?_, ?_⟩
      · rw [hadds]; simp
      · intro x hx
        have := hno x (List.mem_reverse.1 hx)
        simpa using this

/-! ## A second name of the same uid -/

/-- C19 (as the code has it): for every granting rule (also one without any
capability bit) and every foreign port, `user_db_can_reply` returns true for
every candidate string that resolves in the identity directory to a record
whose uid is the requester's, whatever that record's name; hence, under an
administrator rule that is not FORCE (also one granting nothing), a matched
preference of kind REPLY whose selected string names such an account has that
string copied by `xstrncpy` into the reply, with return code 0; given a
capacity that holds it, that string is disclosed, and not the requester's
system name when the two names differ. -/
theorem same_uid_alias_is_disclosed (K : cap_consts) (E : collaborators) (db : user_db)
    (pwd : passwd) (lport fport : Nat) (laddr faddr : sockaddr_storage) (reply : List Char)
    (len : Nat) (c p : user_cap) (t : List Char) (sp : passwd)
    (hsel : get_ident_user_cap K db pwd lport fport laddr faddr = some c)
    (hact : c.action ≠ K.ACTION_FORCE)
    (hp : user_db_get_pref E pwd lport fport laddr faddr = some p)
    (hk : p.caps = K.CAP_REPLY)
    (ht : select_reply E p = some t)
    (hsp : E.getpwnam t = some sp)
    (hu : sp.pw_uid = pwd.pw_uid) :
    (∀ (rule : user_cap) (port : Nat) (cand : List Char) (rec : passwd),
        E.getpwnam cand = some rec → rec.pw_uid = pwd.pw_uid →
        user_db_can_reply K E rule pwd cand port = true) ∧
      get_ident K E db pwd lport fport laddr faddr reply len = some (0, xstrncpy reply t len) ∧
      (t.length < len →
        get_ident K E db pwd lport fport laddr faddr reply len = some (0, t) ∧
        (t ≠ pwd.pw_name →
          get_ident K E db pwd lport fport laddr faddr reply len ≠ some (0, pwd.pw_name))) := by
  have hres : get_ident K E db pwd lport fport laddr faddr reply len
      = some (0, xstrncpy reply t len) := by
    rw [get_ident_of_rule K E db pwd lport fport laddr faddr reply len c hsel]
    simp only [get_ident_dispatch, hact, if_false]
    rw [get_ident_pref_reply K E c pwd lport fport laddr faddr reply len p t hp hk ht,
      can_reply_same_uid K E c pwd t fport sp hsp hu]
    simp
  refine ⟨fun rule port cand rec hc hr => can_reply_same_uid K E rule pwd cand port rec hc hr,
    hres, ?_⟩
  intro hfit
  rw [hres, xstrncpy_fits reply t len hfit]
  refine ⟨rfl, ?_⟩
  intro hne heq
  apply hne
  simpa using heq

/-- C19, instance: `bob` (uid 1000) prefers the reply `rob`, the name of a
second account of uid 1000; under an administrator rule granting nothing `rob`
is disclosed. -/
theorem same_uid_alias_is_disclosed_witness :
    get_ident_user_cap sample_consts (bob_db (plain_rule 0 1)) bob 40000 113 local_addr
        foreign_addr = some (plain_rule 0 1) ∧
      (sample_env [bob, rob] [reply_rule sample_consts.CAP_REPLY 0 [rob.pw_name]]).getpwnam
        rob.pw_name = some rob ∧
      rob.pw_uid = bob.pw_uid ∧
      rob.pw_name ≠ bob.pw_name ∧
      get_ident sample_consts
          (sample_env [bob, rob] [reply_rule sample_consts.CAP_REPLY 0 [rob.pw_name]])
          (bob_db (plain_rule 0 1)) bob 40000 113 local_addr foreign_addr [] 64
        = some (0, rob.pw_name) :=
  ⟨by decide, by decide, by decide, by decide,
    ((same_uid_alias_is_disclosed sample_consts
      (sample_env [bob, rob] [reply_rule sample_consts.CAP_REPLY 0 [rob.pw_name]])
      (bob_db (plain_rule 0 1)) bob 40000 113 local_addr foreign_addr [] 64 (plain_rule 0 1)
      (reply_rule sample_consts.CAP_REPLY 0 [rob.pw_name]) rob.pw_name rob
      (by decide) (by decide) (by decide) (by decide) (by decide) (by decide)
      (by decide)).2.2 (by decide)).1⟩

/-- C19, counterexample to the claim as stated: `bob` (uid 1000) prefers the
reply `bobby`, the name of a second account of uid 1000, under an
administrator rule that is not FORCE and grants nothing; with a capacity of 4
`get_ident` discloses `bob`, the requester's system name, and not `bobby`. -/
theorem short_capacity_discloses_system_name :
    get_ident_user_cap sample_consts (bob_db (plain_rule 0 1)) bob 40000 113 local_addr
        foreign_addr = some (plain_rule 0 1) ∧
      (plain_rule 0 1).action ≠ sample_consts.ACTION_FORCE ∧
      user_db_get_pref
          (sample_env [bob, bobby] [reply_rule sample_consts.CAP_REPLY 0 [bobby.pw_name]])
          bob 40000 113 local_addr foreign_addr
        = some (reply_rule sample_consts.CAP_REPLY 0 [bobby.pw_name]) ∧
      select_reply
          (sample_env [bob, bobby] [reply_rule sample_consts.CAP_REPLY 0 [bobby.pw_name]])
          (reply_rule sample_consts.CAP_REPLY 0 [bobby.pw_name]) = some bobby.pw_name ∧
      (sample_env [bob, bobby]
          [reply_rule sample_consts.CAP_REPLY 0 [bobby.pw_name]]).getpwnam bobby.pw_name
        = some bobby ∧
      bobby.pw_uid = bob.pw_uid ∧
      bobby.pw_name ≠ bob.pw_name ∧
      user_db_can_reply sample_consts
          (sample_env [bob, bobby] [reply_rule sample_consts.CAP_REPLY 0 [bobby.pw_name]])
          (plain_rule 0 1) bob bobby.pw_name 113 = true ∧
      get_ident sample_consts
          (sample_env [bob, bobby] [reply_rule sample_consts.CAP_REPLY 0 [bobby.pw_name]])
          (bob_db (plain_rule 0 1)) bob 40000 113 local_addr foreign_addr [] 4
        = some (0, bob.pw_name) := by
  decide

/-! ## Lemmas on the masquerade table -/

theorem takeWhile_append_stop {α : Type} (p : α → Bool) (t r : List α) (d : α)
    (ht : ∀ c ∈ t, p c = true) (hd : p d = false) : (t ++ d :: r).takeWhile p = t := by
  induction t with
  | nil => simp [List.takeWhile, hd]
  | cons a t ih =>
    have ha := ht a (List.mem_cons_self _ _)
    have hi := ih (fun c hc => ht c (List.mem_cons_of_mem _ hc))
    simp [List.takeWhile_cons, ha, hi]

theorem dropWhile_append_stop {α : Type} (p : α → Bool) (t r : List α) (d : α)
    (ht : ∀ c ∈ t, p c = true) (hd : p d = false) : (t ++ d :: r).dropWhile p = d :: r := by
  induction t with
  | nil => simp [List.dropWhile, hd]
  | cons a t ih =>
    have ha := ht a (List.mem_cons_self _ _)
    have hi := ih (fun c hc => ht c (List.mem_cons_of_mem _ hc))
    simp [List.dropWhile_cons, ha, hi]

theorem takeWhile_all {α : Type} (p : α → Bool) (t : List α) (ht : ∀ c ∈ t, p c = true) :
    t.takeWhile p = t := by
  induction t with
  | nil => rfl
  | cons a t ih =>
    have ha := ht a (List.mem_cons_self _ _)
    have hi := ih (fun c hc => ht c (List.mem_cons_of_mem _ hc))
    simp [List.takeWhile_cons, ha, hi]

theorem dropWhile_all {α : Type} (p : α → Bool) (t : List α) (ht : ∀ c ∈ t, p c = true) :
    t.dropWhile p = [] := by
  induction t with
  | nil => rfl
  | cons a t ih =>
    have ha := ht a (List.mem_cons_self _ _)
    have hi := ih (fun c hc => ht c (List.mem_cons_of_mem _ hc))
    simp [List.dropWhile_cons, ha, hi]

theorem mask_ok_mem (t : List Char) (h : mask_ok t = true) (c : Char) (hc : c ∈ t) :
    c ≠ ' ' ∧ c ≠ '\t' ∧ c ≠ '\n' ∧ c ≠ '\r' := by
  simp only [mask_ok, List.all_eq_true, Bool.and_eq_true, bne_iff_ne, ne_eq] at h
  obtain ⟨⟨⟨⟨h1, h2⟩, h3⟩, h4⟩, -⟩ := h c hc
  exact ⟨h1, h2, h3, h4⟩

theorem mask_ok_nul (t : List Char) (h : mask_ok t = true) (c : Char) (hc : c ∈ t) :
    c ≠ Char.ofNat 0 := by
  simp only [mask_ok, List.all_eq_true, Bool.and_eq_true, bne_iff_ne, ne_eq] at h
  exact (h c hc).2

theorem field_ok_mem (t : List Char) (h : field_ok t = true) (c : Char) (hc : c ∈ t) :
    c ≠ ' ' ∧ c ≠ '\t' ∧ c ≠ '\n' ∧ c ≠ '\r' := by
  simp only [field_ok, Bool.and_eq_true] at h
  exact mask_ok_mem t h.2 c hc

theorem field_ok_ne_nil (t : List Char) (h : field_ok t = true) : t ≠ [] := by
  intro e
  rw [e] at h
  simp [field_ok] at h

/-- The characters of an address field with its mask are no delimiters, no
newline and no carriage return. -/
theorem addr_field_mem (atok : List Char) (mtok : Option (List Char))
    (ha : addr_ok atok = true) (hm : ∀ m, mtok = some m → mask_ok m = true) (c : Char)
    (hc : c ∈ addr_field atok mtok) : c ≠ ' ' ∧ c ≠ '\t' ∧ c ≠ '\n' ∧ c ≠ '\r' := by
  simp only [addr_ok, Bool.and_eq_true] at ha
  simp only [addr_field, List.mem_append] at hc
  rcases hc with hc | hc
  · exact field_ok_mem atok ha.1.1 c hc
  · cases mtok with
    | none => simp at hc
    | some m =>
      simp only [List.mem_cons] at hc
      rcases hc with hc | hc
      · rw [hc]; decide
      · exact mask_ok_mem m (hm m rfl) c hc

/-- The characters of an address field with its mask are no NUL bytes. -/
theorem addr_field_nul (atok : List Char) (mtok : Option (List Char))
    (ha : addr_ok atok = true) (hm : ∀ m, mtok = some m → mask_ok m = true) (c : Char)
    (hc : c ∈ addr_field atok mtok) : c ≠ Char.ofNat 0 := by
  simp only [addr_ok, field_ok, Bool.and_eq_true] at ha
  simp only [addr_field, List.mem_append] at hc
  rcases hc with hc | hc
  · exact mask_ok_nul atok ha.1.1.2 c hc
  · cases mtok with
    | none => simp at hc
    | some m =>
      simp only [List.mem_cons] at hc
      rcases hc with hc | hc
      · rw [hc]; decide
      · exact mask_ok_nul m (hm m rfl) c hc

/-- Read by `strtok`, a field followed by a space is that field, and the text
behind the space is left. -/
theorem strtok_field (t rest : List Char) (hne : t ≠ [])
    (ht : ∀ c ∈ t, c ≠ ' ' ∧ c ≠ '\t' ∧ c ≠ '\n' ∧ c ≠ '\r') :
    strtok (t ++ ' ' :: rest) = some (t, rest) := by
  have hnd : ∀ c ∈ t, (!is_delim c) = true := by
    intro c hc
    obtain ⟨h1, h2, -, -⟩ := ht c hc
    simp [is_delim, h1, h2]
  cases t with
  | nil => exact absurd rfl hne
  | cons a t =>
    have ha : is_delim a = false := by
      have := hnd a (List.mem_cons_self _ _)
      simpa using this
    have h1 : ((a :: t) ++ ' ' :: rest).dropWhile is_delim = (a :: t) ++ ' ' :: rest := by
      simp [List.dropWhile, ha]
    unfold strtok
    rw [h1]
    simp only [List.cons_append]
    have h2 := takeWhile_append_stop (fun x => !is_delim x) (a :: t) rest ' ' hnd (by decide)
    have h3 := dropWhile_append_stop (fun x => !is_delim x) (a :: t) rest ' ' hnd (by decide)
    simp only [List.cons_append] at h2 h3
    rw [h2, h3]
    rfl

/-- Read by `strtok`, a field at the end of the text is that field. -/
theorem strtok_last_field (t : List Char) (hne : t ≠ [])
    (ht : ∀ c ∈ t, c ≠ ' ' ∧ c ≠ '\t' ∧ c ≠ '\n' ∧ c ≠ '\r') :
    strtok t = some (t, []) := by
  have hnd : ∀ c ∈ t, (!is_delim c) = true := by
    intro c hc
    obtain ⟨h1, h2, -, -⟩ := ht c hc
    simp [is_delim, h1, h2]
  cases t with
  | nil => exact absurd rfl hne
  | cons a t =>
    have ha : is_delim a = false := by
      have := hnd a (List.mem_cons_self _ _)
      simpa using this
    have h1 : (a :: t).dropWhile is_delim = a :: t := by
      simp [List.dropWhile, ha]
    unfold strtok
    rw [h1]
    simp only
    rw [takeWhile_all _ (a :: t) hnd, dropWhile_all _ (a :: t) hnd]
    rfl

/-- The end of a pass on the fields `user os`: both must fit their buffers. -/
theorem masq_fields_text (host : sockaddr_storage) (ubuf obuf : List Char)
    (user_len os_len : Nat) (user os : List Char) (hu : field_ok user = true)
    (ho : field_ok os = true) :
    masq_fields host ubuf obuf user_len os_len (user ++ ' ' :: os)
      = if user.length ≥ user_len then ⟨-1, ubuf, obuf, host⟩
        else if os.length ≥ os_len then ⟨-1, user, obuf, host⟩
        else ⟨0, user, os, host⟩ := by
  unfold masq_fields
  rw [strtok_field user os (field_ok_ne_nil user hu) (field_ok_mem user hu)]
  simp only
  by_cases h1 : user.length ≥ user_len
  · simp [h1]
  · rw [strtok_last_field os (field_ok_ne_nil os ho) (field_ok_mem os ho)]
    have hfit : xstrncpy ubuf user user_len = user := xstrncpy_fits ubuf user user_len (by omega)
    by_cases h2 : os.length ≥ os_len
    · simp [h1, h2, hfit]
    · have hfit2 : xstrncpy obuf os os_len = os := xstrncpy_fits obuf os os_len (by omega)
      simp [h1, h2, hfit, hfit2]

/-- The address field splits at its `/` into the address and the mask. -/
theorem addr_field_split (atok : List Char) (mtok : Option (List Char))
    (ha : addr_ok atok = true) :
    (addr_field atok mtok).takeWhile (fun c => c != '/') = atok ∧
      (if (addr_field atok mtok).contains '/' then
          some (((addr_field atok mtok).dropWhile (fun c => c != '/')).drop 1)
        else none) = mtok := by
  simp only [addr_ok, Bool.and_eq_true, List.all_eq_true, bne_iff_ne, ne_eq] at ha
  have hns : ∀ c ∈ atok, (c != '/') = true := by
    intro c hc
    simpa using ha.1.2 c hc
  cases mtok with
  | none =>
    have hnot : (atok.contains '/') = false := by
      cases hcon : atok.contains '/' with
      | false => rfl
      | true =>
        have hmem : '/' ∈ atok := by simpa using hcon
        exact absurd rfl (ha.1.2 _ hmem)
    simp only [addr_field, List.append_nil, hnot]
    exact ⟨takeWhile_all _ atok hns, by simp⟩
  | some m =>
    have hcon : (atok ++ '/' :: m).contains '/' = true := by simp
    simp only [addr_field, hcon, if_true]
    rw [takeWhile_append_stop _ atok m '/' hns (by decide),
      dropWhile_append_stop _ atok m '/' hns (by decide)]
    exact ⟨rfl, rfl⟩

/-- One pass of the loop on a line `address[/mask] user os` made of proper
fields: the address is looked up, the mask is built, and the comparison
decides. -/
theorem masq_line_text (M : masq_env) (host : sockaddr_storage) (ubuf obuf : List Char)
    (user_len os_len : Nat) (atok : List Char) (mtok : Option (List Char))
    (user os : List Char) (ha : addr_ok atok = true)
    (hm : ∀ m, mtok = some m → mask_ok m = true) (hu : field_ok user = true)
    (ho : field_ok os = true) :
    masq_line M host ubuf obuf user_len os_len (masq_text_line atok mtok user os)
      = match M.get_addr atok with
        | none => masq_step.done ⟨-1, ubuf, obuf, host⟩
        | some stemp =>
          match masq_mask M stemp mtok with
          | none => masq_step.done ⟨-1, ubuf, obuf, host⟩
          | some mask =>
            masq_compare host ubuf obuf user_len os_len stemp mask (user ++ ' ' :: os) := by
  have htok := addr_field_mem atok mtok ha hm
  have hfa : field_ok atok = true := by
    simp only [addr_ok, Bool.and_eq_true] at ha
    exact ha.1.1
  have hane : atok ≠ [] := field_ok_ne_nil atok hfa
  have htokne : addr_field atok mtok ≠ [] := by
    simp [addr_field, hane]
  have hL : masq_text_line atok mtok user os
      = (addr_field atok mtok ++ ' ' :: (user ++ ' ' :: os)) ++ ['\n'] := by
    simp [masq_text_line, List.append_assoc]
  have hbody : ∀ c ∈ addr_field atok mtok ++ ' ' :: (user ++ ' ' :: os),
      c ≠ '\n' ∧ c ≠ '\r' := by
    intro c hc
    simp only [List.mem_append, List.mem_cons] at hc
    rcases hc with hc | hc | hc | hc | hc
    · exact ⟨(htok c hc).2.2.1, (htok c hc).2.2.2⟩
    · rw [hc]; decide
    · exact ⟨(field_ok_mem user hu c hc).2.2.1, (field_ok_mem user hu c hc).2.2.2⟩
    · rw [hc]; decide
    · exact ⟨(field_ok_mem os ho c hc).2.2.1, (field_ok_mem os ho c hc).2.2.2⟩
  have hnul : ∀ c ∈ (addr_field atok mtok ++ ' ' :: (user ++ ' ' :: os)) ++ ['\n'],
      c ≠ Char.ofNat 0 := by
    intro c hc
    simp only [List.mem_append, List.mem_cons, List.mem_singleton, List.not_mem_nil,
      or_false] at hc
    have hfu : mask_ok user = true := by
      simp only [field_ok, Bool.and_eq_true] at hu
      exact hu.2
    have hfo : mask_ok os = true := by
      simp only [field_ok, Bool.and_eq_true] at ho
      exact ho.2
    rcases hc with (hc | hc | hc | hc | hc) | hc
    · exact addr_field_nul atok mtok ha hm c hc
    · rw [hc]; decide
    · exact mask_ok_nul user hfu c hc
    · rw [hc]; decide
    · exact mask_ok_nul os hfo c hc
    · rw [hc]; decide
  have hcs : c_string ((addr_field atok mtok ++ ' ' :: (user ++ ' ' :: os)) ++ ['\n'])
      = (addr_field atok mtok ++ ' ' :: (user ++ ' ' :: os)) ++ ['\n'] :=
    takeWhile_all _ _ (fun c hc => by simpa using hnul c hc)
  have h1 : ((addr_field atok mtok ++ ' ' :: (user ++ ' ' :: os)) ++ ['\n']).contains '\n'
      = true := by simp
  have h2 : ((addr_field atok mtok ++ ' ' :: (user ++ ' ' :: os)) ++ ['\n']).takeWhile
      (fun c => c != '\n') = addr_field atok mtok ++ ' ' :: (user ++ ' ' :: os) :=
    takeWhile_append_stop _ _ [] '\n' (fun c hc => by simpa using (hbody c hc).1) (by decide)
  have h5 : (addr_field atok mtok ++ ' ' :: (user ++ ' ' :: os)).takeWhile
      (fun c => c != '\r') = addr_field atok mtok ++ ' ' :: (user ++ ' ' :: os) :=
    takeWhile_all _ _ (fun c hc => by simpa using (hbody c hc).2)
  have h6 := strtok_field (addr_field atok mtok) (user ++ ' ' :: os) htokne htok
  obtain ⟨h7, h8⟩ := addr_field_split atok mtok ha
  obtain ⟨a0, arest, hacons⟩ := List.exists_cons_of_ne_nil hane
  have ha0 : a0 ≠ '#' := by
    simp only [addr_ok, Bool.and_eq_true, hacons, List.head?_cons, bne_iff_ne, ne_eq,
      Option.some.injEq] at ha
    exact ha.2
  have ha0d : a0 ≠ ' ' ∧ a0 ≠ '\t' := by
    have := field_ok_mem atok hfa a0 (by rw [hacons]; exact List.mem_cons_self _ _)
    exact ⟨this.1, this.2.1⟩
  have h3 : ((addr_field atok mtok ++ ' ' :: (user ++ ' ' :: os)).head? == some '#') = false := by
    simp [addr_field, hacons, ha0]
  have h4 : blank_line (addr_field atok mtok ++ ' ' :: (user ++ ' ' :: os)) = false := by
    simp [blank_line, addr_field, hacons, ha0d.1, ha0d.2]
  unfold masq_line
  rw [hL, hcs]
  simp only [h1, h2, h3, h4, h5, h6, h7, h8, Bool.not_true, Bool.false_eq_true, if_false]

/-- On a line of another family than `AF_INET` nothing is masked, whatever
stands behind the `/`. -/
theorem masq_mask_other_family (M : masq_env) (st : sockaddr_storage)
    (temp : Option (List Char)) (hfam : st.ss_family ≠ AF_INET) :
    masq_mask M st temp = some none := by
  cases temp with
  | none => rfl
  | some t => simp [masq_mask, hfam]

/-- The lines that are skipped in front of a line do not change what the loop
does from there on, apart from the host they leave. -/
theorem masq_scan_after_skips (M : masq_env) (ubuf obuf : List Char) (user_len os_len : Nat)
    (bufs rest : List (List Char)) :
    ∀ host host1, masq_skip_all M ubuf obuf user_len os_len host bufs = some host1 →
      masq_scan M ubuf obuf user_len os_len host (bufs ++ rest)
        = masq_scan M ubuf obuf user_len os_len host1 rest := by
  induction bufs with
  | nil =>
    intro host host1 h
    simp only [masq_skip_all, Option.some.injEq] at h
    rw [h]; rfl
  | cons b bs ih =>
    intro host host1 h
    simp only [masq_skip_all] at h
    simp only [List.cons_append, masq_scan]
    cases hb : masq_line M host ubuf obuf user_len os_len b with
    | next h2 =>
      rw [hb] at h
      exact ih h2 host1 h
    | done r =>
      rw [hb] at h
      cases h

/-- The loop on a table that starts with a line `address[/mask] user os` of
proper fields whose address and mask are read: the line decides when its
address equals the host under the mask, otherwise the loop goes on with the
masked host. -/
theorem masq_scan_text_line (M : masq_env) (host : sockaddr_storage) (ubuf obuf : List Char)
    (user_len os_len : Nat) (atok : List Char) (mtok : Option (List Char))
    (user os : List Char) (st : sockaddr_storage) (mask : Option Nat)
    (post : List (List Char)) (ha : addr_ok atok = true)
    (hm : ∀ m, mtok = some m → mask_ok m = true) (hu : field_ok user = true)
    (ho : field_ok os = true) (haddr : M.get_addr atok = some st)
    (hmask : masq_mask M st mtok = some mask) :
    masq_scan M ubuf obuf user_len os_len host (masq_text_line atok mtok user os :: post)
      = if sin_equal (masq_and st mask) (masq_and host mask) = true then
          (if user.length ≥ user_len then ⟨-1, ubuf, obuf, masq_and host mask⟩
            else if os.length ≥ os_len then ⟨-1, user, obuf, masq_and host mask⟩
            else ⟨0, user, os, masq_and host mask⟩)
        else masq_scan M ubuf obuf user_len os_len (masq_and host mask) post := by
  simp only [masq_scan]
  rw [masq_line_text M host ubuf obuf user_len os_len atok mtok user os ha hm hu ho]
  simp only [haddr, hmask, masq_compare]
  by_cases heq : sin_equal (masq_and st mask) (masq_and host mask) = true
  · simp only [heq, Bool.not_true, Bool.false_eq_true, if_false, if_true]
    rw [masq_fields_text (masq_and host mask) ubuf obuf user_len os_len user os hu ho]
  · simp only [heq, Bool.not_eq_true] at heq ⊢
    simp [heq]

/-- The loop on a table that starts with a line `address[/mask] user os` of
proper fields whose address is read and whose mask is refused: failure. -/
theorem masq_scan_text_line_bad_mask (M : masq_env) (host : sockaddr_storage)
    (ubuf obuf : List Char) (user_len os_len : Nat) (atok : List Char)
    (mtok : Option (List Char)) (user os : List Char) (st : sockaddr_storage)
    (post : List (List Char)) (ha : addr_ok atok = true)
    (hm : ∀ m, mtok = some m → mask_ok m = true) (hu : field_ok user = true)
    (ho : field_ok os = true) (haddr : M.get_addr atok = some st)
    (hmask : masq_mask M st mtok = none) :
    masq_scan M ubuf obuf user_len os_len host (masq_text_line atok mtok user os :: post)
      = ⟨-1, ubuf, obuf, host⟩ := by
  simp only [masq_scan]
  rw [masq_line_text M host ubuf obuf user_len os_len atok mtok user os ha hm hu ho]
  simp only [haddr, hmask]

theorem ne_of_isDigit (c x : Char) (h : c.isDigit = true) (hx : x.isDigit = false) : c ≠ x := by
  intro e
  rw [e, hx] at h
  cases h

/-- A run of decimal digits whose value fits is read by `strtoul` in full, as
its value. -/
theorem strtoul_digits (ulong_max : Nat) (ds : List Char) (hne : ds ≠ [])
    (hd : ∀ c ∈ ds, c.isDigit = true) (hv : digits_value ds ≤ ulong_max) :
    strtoul ulong_max ds = (digits_value ds, []) := by
  cases ds with
  | nil => exact absurd rfl hne
  | cons c r =>
    have hc := hd c (List.mem_cons_self _ _)
    have hsp : isspace c = false := by
      simp only [isspace, Bool.or_eq_false_iff, beq_eq_false_iff_ne, ne_eq]
      exact ⟨⟨⟨⟨⟨ne_of_isDigit c _ hc (by decide), ne_of_isDigit c _ hc (by decide)⟩,
        ne_of_isDigit c _ hc (by decide)⟩, ne_of_isDigit c _ hc (by decide)⟩,
        ne_of_isDigit c _ hc (by decide)⟩, ne_of_isDigit c _ hc (by decide)⟩
    have hminus : c ≠ '-' := ne_of_isDigit c _ hc (by decide)
    have hplus : c ≠ '+' := ne_of_isDigit c _ hc (by decide)
    have h1 : (c :: r).dropWhile isspace = c :: r := by simp [List.dropWhile, hsp]
    have h2 : (c :: r).takeWhile Char.isDigit = c :: r := takeWhile_all _ _ hd
    have h3 : (c :: r).dropWhile Char.isDigit = [] := dropWhile_all _ _ hd
    have hv2 : ¬ digits_value (c :: r) > ulong_max := by omega
    have hs1 : (some c == some '-') = false := by simp [hminus]
    have hs2 : (some c == some '+') = false := by simp [hplus]
    simp only [strtoul, h1, List.head?_cons, hs1, hs2, Bool.or_self, Bool.false_eq_true,
      if_false, h2, h3, List.isEmpty_cons, hv2]

/-- The decimal spelling of a prefix length of 1 to 31 is a mask token that
`strtoul` reads in full as that length. -/
theorem strtoul_prefix_length (ulong_max n : Nat) (h1 : 1 ≤ n) (h31 : n ≤ 31)
    (hmax : 31 ≤ ulong_max) :
    strtoul ulong_max (Nat.toDigits 10 n) = (n, []) ∧ mask_ok (Nat.toDigits 10 n) = true := by
  have hall : (Nat.toDigits 10 n ≠ [] ∧ (∀ c ∈ Nat.toDigits 10 n, c.isDigit = true) ∧
      digits_value (Nat.toDigits 10 n) = n) ∧ mask_ok (Nat.toDigits 10 n) = true := by
    interval_cases n <;> decide
  obtain ⟨⟨hne, hd, hval⟩, hok⟩ := hall
  refine ⟨?_, hok⟩
  rw [strtoul_digits ulong_max _ hne hd (by omega), hval]


/-! ## Lemmas on the line buffer -/

/-- One call of `fgets` on a line that fits the buffer delivers the line with
its newline. -/
theorem fgets_buffers_from_line (size : Nat) (body rest : List Char) :
    ∀ cur : List Char, (∀ c ∈ body, c ≠ '\n') → cur.length + body.length + 2 ≤ size →
      fgets_buffers_from size (body ++ '\n' :: rest) cur
        = (cur.reverse ++ body ++ ['\n']) :: fgets_buffers_from size rest [] := by
  induction body with
  | nil =>
    intro cur _ _
    simp [fgets_buffers_from]
  | cons b body ih =>
    intro cur hnl hlen
    have hb : b ≠ '\n' := hnl b (List.mem_cons_self _ _)
    have hsz : ¬ (cur.length + 2 ≥ size) := by
      simp only [List.length_cons] at hlen
      omega
    have hcond : ¬ (b = '\n' ∨ cur.length + 2 ≥ size) := fun h => h.elim hb hsz
    simp only [List.cons_append, fgets_buffers_from, hcond, if_false, List.append_eq]
    rw [ih (b :: cur) (fun c hc => hnl c (List.mem_cons_of_mem _ hc))
      (by simp only [List.length_cons] at hlen ⊢; omega)]
    simp

/-- A line whose only newline is its last byte is a body without newline
followed by the newline. -/
theorem ends_in_newline_body (l : List Char) (h : ends_in_newline l = true) :
    ∃ body, l = body ++ ['\n'] ∧ ∀ c ∈ body, c ≠ '\n' := by
  induction l with
  | nil => simp [ends_in_newline] at h
  | cons c r ih =>
    cases r with
    | nil =>
      simp only [ends_in_newline, beq_iff_eq] at h
      exact ⟨[], by simp [h], by simp⟩
    | cons c2 r2 =>
      simp only [ends_in_newline, Bool.and_eq_true, bne_iff_ne, ne_eq] at h
      obtain ⟨body, hb, hnl⟩ := ih h.2
      refine ⟨c :: body, by simp [hb], ?_⟩
      intro x hx
      rcases List.mem_cons.1 hx with hx | hx
      · rw [hx]; exact h.1
      · exact hnl x hx

theorem ends_in_newline_of_body (body : List Char) (hnl : ∀ c ∈ body, c ≠ '\n') :
    ends_in_newline (body ++ ['\n']) = true := by
  induction body with
  | nil => rfl
  | cons c r ih =>
    have hc : c ≠ '\n' := hnl c (List.mem_cons_self _ _)
    have hr := ih (fun x hx => hnl x (List.mem_cons_of_mem _ hx))
    cases r with
    | nil => simp [ends_in_newline, hc]
    | cons c2 r2 =>
      simp only [List.cons_append] at hr ⊢
      simp [ends_in_newline, hc, hr]

/-- The calls of `fgets` on a file that starts with a whole line: the first
delivers that line, the others what they deliver from the rest. -/
theorem fgets_buffers_whole_line (l rest : List Char) (h : whole_line l = true) :
    fgets_buffers MASQ_BUF_SIZE (l ++ rest) = l :: fgets_buffers MASQ_BUF_SIZE rest := by
  simp only [whole_line, Bool.and_eq_true, decide_eq_true_eq] at h
  obtain ⟨body, hb, hnl⟩ := ends_in_newline_body l h.1
  have hlen : ([] : List Char).length + body.length + 2 ≤ MASQ_BUF_SIZE := by
    have h2 := h.2
    rw [hb] at h2
    simp only [List.length_append, List.length_singleton, List.length_nil] at h2 ⊢
    omega
  have := fgets_buffers_from_line MASQ_BUF_SIZE body rest [] hnl hlen
  simp only [fgets_buffers, hb, List.append_assoc, List.singleton_append]
  rw [this]
  simp

/-- The calls of `fgets` on a file that starts with whole lines. -/
theorem fgets_buffers_whole_lines (ls : List (List Char)) (rest : List Char)
    (h : ∀ l ∈ ls, whole_line l = true) :
    fgets_buffers MASQ_BUF_SIZE (ls.flatten ++ rest) = ls ++ fgets_buffers MASQ_BUF_SIZE rest := by
  induction ls with
  | nil => simp
  | cons l ls ih =>
    simp only [List.flatten_cons, List.append_assoc, List.cons_append]
    rw [fgets_buffers_whole_line l _ (h l (List.mem_cons_self _ _)),
      ih (fun x hx => h x (List.mem_cons_of_mem _ hx))]

/-- A line `address[/mask] user os` of proper fields and of at most 4095 bytes
is a whole line. -/
theorem text_line_whole (atok : List Char) (mtok : Option (List Char)) (user os : List Char)
    (ha : addr_ok atok = true) (hm : ∀ m, mtok = some m → mask_ok m = true)
    (hu : field_ok user = true) (ho : field_ok os = true)
    (hlen : (masq_text_line atok mtok user os).length + 1 ≤ MASQ_BUF_SIZE) :
    whole_line (masq_text_line atok mtok user os) = true := by
  have htok := addr_field_mem atok mtok ha hm
  have hL : masq_text_line atok mtok user os
      = (addr_field atok mtok ++ ' ' :: (user ++ ' ' :: os)) ++ ['\n'] := by
    simp [masq_text_line, List.append_assoc]
  have hbody : ∀ c ∈ addr_field atok mtok ++ ' ' :: (user ++ ' ' :: os), c ≠ '\n' := by
    intro c hc
    simp only [List.mem_append, List.mem_cons] at hc
    rcases hc with hc | hc | hc | hc | hc
    · exact (htok c hc).2.2.1
    · rw [hc]; decide
    · exact (field_ok_mem user hu c hc).2.2.1
    · rw [hc]; decide
    · exact (field_ok_mem os ho c hc).2.2.1
  simp only [whole_line, Bool.and_eq_true, decide_eq_true_eq]
  refine ⟨?_, hlen⟩
  rw [hL]
  exact ends_in_newline_of_body _ hbody

/-- A buffer that holds a NUL byte in front of its newline ends the lookup: the
newline is not found. -/
theorem masq_line_nul_before_newline (M : masq_env) (host : sockaddr_storage)
    (ubuf obuf : List Char) (user_len os_len : Nat) (pre post : List Char)
    (h : ∀ c ∈ pre, c ≠ '\n') :
    masq_line M host ubuf obuf user_len os_len (pre ++ Char.ofNat 0 :: post)
      = masq_step.done ⟨-1, ubuf, obuf, host⟩ := by
  have hsub : ∀ l : List Char, ∀ c ∈ c_string (l ++ Char.ofNat 0 :: post), c ∈ l := by
    intro l
    induction l with
    | nil => intro c hc; simp [c_string, List.takeWhile_cons] at hc
    | cons a l ih =>
      intro c hc
      simp only [c_string, List.cons_append, List.takeWhile_cons] at hc ih
      split at hc
      · rcases List.mem_cons.1 hc with hc | hc
        · rw [hc]; exact List.mem_cons_self _ _
        · exact List.mem_cons_of_mem _ (ih c hc)
      · simp at hc
  have hno : '\n' ∉ c_string (pre ++ Char.ofNat 0 :: post) := fun hmem =>
    absurd rfl (h _ (hsub pre _ hmem))
  simp [masq_line, hno]

/-- The lookup on a file that starts with whole lines that are all passed
over, followed by a whole line: the loop reaches that line with the host the
first lines leave. -/
theorem find_masq_entry_reaches (M : masq_env) (before : List (List Char)) (l after : List Char)
    (host host1 : sockaddr_storage) (ubuf obuf : List Char) (user_len os_len : Nat)
    (hbefore : ∀ b ∈ before, whole_line b = true)
    (hskip : masq_skip_all M ubuf obuf user_len os_len host before = some host1)
    (hl : whole_line l = true) :
    find_masq_entry M (some (before.flatten ++ (l ++ after))) host ubuf user_len obuf os_len
      = masq_scan M ubuf obuf user_len os_len host1 (l :: fgets_buffers MASQ_BUF_SIZE after) := by
  simp only [find_masq_entry]
  rw [fgets_buffers_whole_lines before _ hbefore, fgets_buffers_whole_line l after hl,
    masq_scan_after_skips M ubuf obuf user_len os_len before _ host host1 hskip]

/-- The lookup on a file whose first lines are whole lines that are all passed
over, followed by a line `address[/mask] user os` of proper fields that fits
the line buffer and whose address and mask are read: the line decides when its
address equals the host under the mask, otherwise the lookup goes on behind it
with the masked host. -/
theorem find_masq_entry_text_line (M : masq_env) (before : List (List Char)) (after : List Char)
    (host host1 : sockaddr_storage) (ubuf obuf : List Char) (user_len os_len : Nat)
    (atok : List Char) (mtok : Option (List Char)) (user os : List Char)
    (st : sockaddr_storage) (mask : Option Nat)
    (hbefore : ∀ b ∈ before, whole_line b = true)
    (hskip : masq_skip_all M ubuf obuf user_len os_len host before = some host1)
    (ha : addr_ok atok = true) (hm : ∀ m, mtok = some m → mask_ok m = true)
    (hu : field_ok user = true) (ho : field_ok os = true)
    (hline : (masq_text_line atok mtok user os).length + 1 ≤ MASQ_BUF_SIZE)
    (haddr : M.get_addr atok = some st) (hmask : masq_mask M st mtok = some mask) :
    find_masq_entry M (some (before.flatten ++ (masq_text_line atok mtok user os ++ after))) host
        ubuf user_len obuf os_len
      = if sin_equal (masq_and st mask) (masq_and host1 mask) = true then
          (if user.length ≥ user_len then ⟨-1, ubuf, obuf, masq_and host1 mask⟩
            else if os.length ≥ os_len then ⟨-1, user, obuf, masq_and host1 mask⟩
            else ⟨0, user, os, masq_and host1 mask⟩)
        else find_masq_entry M (some after) (masq_and host1 mask) ubuf user_len obuf os_len := by
  rw [find_masq_entry_reaches M before _ after host host1 ubuf obuf user_len os_len hbefore hskip
      (text_line_whole atok mtok user os ha hm hu ho hline),
    masq_scan_text_line M host1 ubuf obuf user_len os_len atok mtok user os st mask _ ha hm
      hu ho haddr hmask]
  rfl

/-- C13, the code on the well-formed table `192.168.0.0/16 carol unix`,
`10.0.0.0 alice unix` and the host 10.0.0.5: no line matches the host (the
first differs from it under the mask /16, the second, without mask, is another
address), so that the lookup worded by the specification fails; but the first
line leaves the caller's host ANDed with its mask, 10.0.0.0, and
`find_masq_entry` returns 0 with the user and the os of the second line. -/
theorem earlier_mask_changes_later_match :
    masq_entry_matches sample_masq_env host_10_0_0_5
        ⟨"192.168.0.0".toList, some "16".toList, "carol".toList, "unix".toList⟩ = false ∧
    masq_entry_matches sample_masq_env host_10_0_0_5
        ⟨"10.0.0.0".toList, none, "alice".toList, "unix".toList⟩ = false ∧
    masq_spec_lookup sample_masq_env host_10_0_0_5
        [⟨"192.168.0.0".toList, some "16".toList, "carol".toList, "unix".toList⟩,
          ⟨"10.0.0.0".toList, none, "alice".toList, "unix".toList⟩] = none ∧
    find_masq_entry sample_masq_env
        (some (masq_entry.text
            ⟨"192.168.0.0".toList, some "16".toList, "carol".toList, "unix".toList⟩ ++
          masq_entry.text ⟨"10.0.0.0".toList, none, "alice".toList, "unix".toList⟩))
        host_10_0_0_5 [] 16 [] 16
      = ⟨0, "alice".toList, "unix".toList, ⟨AF_INET, 0x0A000000, 0⟩⟩ ∧
    masq_entry.text ⟨"192.168.0.0".toList, some "16".toList, "carol".toList, "unix".toList⟩ ++
        masq_entry.text ⟨"10.0.0.0".toList, none, "alice".toList, "unix".toList⟩
      = "192.168.0.0/16 carol unix\n10.0.0.0 alice unix\n".toList ∧
    fgets_buffers MASQ_BUF_SIZE "192.168.0.0/16 carol unix\n10.0.0.0 alice unix\n".toList
      = ["192.168.0.0/16 carol unix\n".toList, "10.0.0.0 alice unix\n".toList] := by
  decide

/-! ## The masquerade table: fields that do not fit -/

/-- A token that `strtoul` reads in full and whose value, as the 32-bit
variable `mask` receives it, is below 1 or above 31 (so for 0, for 32 and for
the empty token), on an IPv4 line: `goto failure`. -/
theorem masq_mask_out_of_range (M : masq_env) (st : sockaddr_storage) (tok : List Char)
    (v : Nat) (hfam : st.ss_family = AF_INET) (hnum : strtoul M.ULONG_MAX tok = (v, []))
    (hout : v % 2 ^ 32 < 1 ∨ v % 2 ^ 32 > 31) :
    masq_mask M st (some tok) = none := by
  simp only [masq_mask, hfam, hnum, if_true, ne_eq, not_true_eq_false, if_false, hout]

/-- The empty token is read by `strtoul` as 0, in full. -/
theorem strtoul_empty (ulong_max : Nat) : strtoul ulong_max [] = (0, []) := by
  simp [strtoul]

/-- A line reached by the loop whose mask is refused fails the lookup, and what
stands behind it in the file is not looked at. -/
theorem masq_bad_mask_fails_lookup (M : masq_env) (before : List (List Char))
    (after : List Char) (host host1 : sockaddr_storage) (ubuf obuf : List Char)
    (user_len os_len : Nat) (atok tok user os : List Char) (st : sockaddr_storage) (v : Nat)
    (hbefore : ∀ b ∈ before, whole_line b = true)
    (hskip : masq_skip_all M ubuf obuf user_len os_len host before = some host1)
    (ha : addr_ok atok = true) (hm : mask_ok tok = true)
    (hu : field_ok user = true) (ho : field_ok os = true)
    (hline : (masq_text_line atok (some tok) user os).length + 1 ≤ MASQ_BUF_SIZE)
    (haddr : M.get_addr atok = some st) (hfam : st.ss_family = AF_INET)
    (hnum : strtoul M.ULONG_MAX tok = (v, []))
    (hout : v % 2 ^ 32 < 1 ∨ v % 2 ^ 32 > 31) :
    find_masq_entry M
        (some (before.flatten ++ (masq_text_line atok (some tok) user os ++ after))) host
        ubuf user_len obuf os_len
      = ⟨-1, ubuf, obuf, host1⟩ := by
  have hm2 : ∀ m, some tok = some m → mask_ok m = true := fun m hm2 => by cases hm2; exact hm
  rw [find_masq_entry_reaches M before _ after host host1 ubuf obuf user_len os_len hbefore hskip
      (text_line_whole atok (some tok) user os ha hm2 hu ho hline),
    masq_scan_text_line_bad_mask M host1 ubuf obuf user_len os_len atok (some tok) user os st
      _ ha hm2 hu ho haddr (masq_mask_out_of_range M st tok v hfam hnum hout)]

/-- On a line whose address is of another family than `AF_INET` the text behind
the `/` is not read: the line is compared with the host as it stands. -/
theorem masq_other_family_line (M : masq_env) (before : List (List Char)) (after : List Char)
    (host host1 : sockaddr_storage) (ubuf obuf : List Char)
    (user_len os_len : Nat) (atok : List Char) (mtok : Option (List Char))
    (user os : List Char) (st : sockaddr_storage)
    (hbefore : ∀ b ∈ before, whole_line b = true)
    (hskip : masq_skip_all M ubuf obuf user_len os_len host before = some host1)
    (ha : addr_ok atok = true) (hm : ∀ m, mtok = some m → mask_ok m = true)
    (hu : field_ok user = true) (ho : field_ok os = true)
    (hline : (masq_text_line atok mtok user os).length + 1 ≤ MASQ_BUF_SIZE)
    (haddr : M.get_addr atok = some st) (hfam : st.ss_family ≠ AF_INET) :
    find_masq_entry M (some (before.flatten ++ (masq_text_line atok mtok user os ++ after))) host
        ubuf user_len obuf os_len
      = if sin_equal st host1 = true then
          (if user.length ≥ user_len then ⟨-1, ubuf, obuf, host1⟩
            else if os.length ≥ os_len then ⟨-1, user, obuf, host1⟩
            else ⟨0, user, os, host1⟩)
        else find_masq_entry M (some after) host1 ubuf user_len obuf os_len := by
  rw [find_masq_entry_text_line M before after host host1 ubuf obuf user_len os_len atok mtok
    user os st none hbefore hskip ha hm hu ho hline haddr (masq_mask_other_family M st mtok hfam)]
  rfl

/-- On the IPv6 line `::1/200 dave bsd` the text behind the `/` is not read:
the host `::1` gets `dave` and `bsd`. -/
theorem masq_ipv6_line_ignores_mask :
    find_masq_entry sample_masq_env (some "::1/200 dave bsd\n".toList) ⟨10, 1, 0⟩ [] 16 [] 16
      = ⟨0, "dave".toList, "bsd".toList, ⟨10, 1, 0⟩⟩ := by
  decide

/-- C18, the code where `unsigned long` has 64 bits: the mask token
`4294967320` is a decimal integer outside 1..31, read in full by `strtoul`;
the 32-bit variable `mask` receives 24 of it, and the table
`10.0.0.0/4294967320 alice unix` gives the host 10.0.0.5 the user `alice`
as `10.0.0.0/24` does, with return code 0 and not -1. -/
theorem wide_mask_token_is_accepted :
    strtoul sample_masq_env.ULONG_MAX "4294967320".toList = (4294967320, []) ∧
    ¬ (1 ≤ 4294967320 ∧ 4294967320 ≤ 31) ∧
    4294967320 % 2 ^ 32 = 24 ∧
    find_masq_entry sample_masq_env
        (some "10.0.0.0/4294967320 alice unix\n".toList) host_10_0_0_5 [] 16 [] 16
      = ⟨0, "alice".toList, "unix".toList, ⟨AF_INET, 0x0A000000, 0⟩⟩ ∧
    find_masq_entry sample_masq_env
        (some "10.0.0.0/4294967320 alice unix\n".toList) host_10_0_0_5 [] 16 [] 16
      = find_masq_entry sample_masq_env
        (some "10.0.0.0/24 alice unix\n".toList) host_10_0_0_5 [] 16 [] 16 := by
  decide

end Oidentd
